import Mathlib

/-!
# Monkey HTTP Daemon: vectored output buffer (`src/iov.c`) and CGI bridge (`plugins/cgi/cgi.c`)

A shallow embedding of the two C files.

Conventions of the embedding.

* A `char *` is an address, a natural number (`Ptr`).
* `struct mk_iov`, `mk_pointer` and `MK_IOV_FREE_BUF` are declared in headers
  (`iov.h`, `memory.h`) that are not part of the sources.  The fields are the
  ones `iov.c` reads and writes; integer fields are mathematical integers, the
  conversion of an `int` length to the `size_t` field `iov_len` is explicit
  (`to_size_t`), and the constant `MK_IOV_FREE_BUF` is a parameter of the
  functions comparing with it.
* The two arrays of a `mk_iov` are lists whose length is the number of cells
  obtained from `mk_mem_malloc`.  C has no bounds check: a write or read outside
  the allocated cells is undefined behaviour, which the embedding renders as
  the result `none`.
* Calls of `mk_mem_free` are observable events: `mk_iov_free_marked` returns
  the list of pointers it passed to `mk_mem_free`, in call order.
-/

namespace Monkey

/-! ## Data model of `iov.c` -/

/-- A `char *`: an address. -/
abbrev Ptr := Nat

/-- The POSIX `struct iovec`: one segment of a scatter-gather write.  `iov_len`
is a `size_t`: a value from 0 up to `2^64 - 1`. -/
structure iovec where
  iov_base : Ptr
  iov_len : Int
deriving DecidableEq

/-- The conversion of an `int` to `size_t` made by the assignments
`iov_len = len` of lines 48 and 81: the value modulo `2^64`. -/
def to_size_t (v : Int) : Int :=
  v % 2 ^ 64

/-- The `mk_pointer` of Monkey: a data pointer with a length.  `len` is an
`unsigned long` (`cgi.c` prints it with `%lu`), as wide as `size_t`, so that
`iov_len = sep.len` converts nothing. -/
structure mk_pointer where
  data : Ptr
  len : Int
deriving DecidableEq

/-- The `struct mk_iov`: segment array `io` with cursor `iov_idx`, release
list `buf_to_free` with count `buf_idx`, running `total_len` and capacity `size`. -/
structure mk_iov where
  iov_idx : Int
  io : List iovec
  buf_to_free : List Ptr
  buf_idx : Int
  total_len : Int
  size : Int
deriving DecidableEq

/-- The block of `n` cells returned by `mk_mem_malloc`; its content is not
initialised, `junk i` is whatever cell `i` holds. -/
def mk_mem_malloc {α : Type} (n : Int) (junk : Nat → α) : List α :=
  (List.range n.toNat).map junk

/-- Assignment `xs[i] = v` on an allocated block: undefined outside of it. -/
def store {α : Type} (xs : List α) (i : Int) (v : α) : Option (List α) :=
  if 0 ≤ i ∧ i < xs.length then some (xs.set i.toNat v) else none

/-- Read of `xs[i]` on an allocated block: undefined outside of it. -/
def load {α : Type} (xs : List α) (i : Int) : Option α :=
  if 0 ≤ i ∧ i < xs.length then xs.get? i.toNat else none

/-! ## Operations of `iov.c` -/

/-- Embedding of `mk_iov_create(n, offset)`, lines 29-42. -/
def mk_iov_create (n offset : Int) (junk_io : Nat → iovec) (junk_buf : Nat → Ptr) : mk_iov :=
  { iov_idx := offset
    io := mk_mem_malloc n junk_io
    buf_to_free := mk_mem_malloc n junk_buf
    buf_idx := 0
    total_len := 0
    size := n }

/-- Embedding of `_mk_iov_set_free(mk_io, buf)`, lines 92-96. -/
def _mk_iov_set_free (mk_io : mk_iov) (buf : Ptr) : Option mk_iov := do
  let b ← store mk_io.buf_to_free mk_io.buf_idx buf
  pure { mk_io with buf_to_free := b, buf_idx := mk_io.buf_idx + 1 }

/-- Lines 47-50 and 61-67 of `mk_iov_add_entry`: the segment at the cursor and,
when `sep.len > 0`, the separator segment after it. -/
def add_entry_segments (mk_io : mk_iov) (buf : Ptr) (len : Int) (sep : mk_pointer) :
    Option mk_iov := do
  let io1 ← store mk_io.io mk_io.iov_idx ⟨buf, to_size_t len⟩
  let s1 : mk_iov :=
    { mk_io with io := io1, iov_idx := mk_io.iov_idx + 1, total_len := mk_io.total_len + len }
  if sep.len > 0 then do
    let io2 ← store s1.io s1.iov_idx ⟨sep.data, sep.len⟩
    pure { s1 with io := io2, iov_idx := s1.iov_idx + 1, total_len := s1.total_len + sep.len }
  else pure s1

/-- The ownership step shared by `mk_iov_add_entry` (lines 69-72) and
`mk_iov_set_entry` (lines 84-87): `if (free == MK_IOV_FREE_BUF) _mk_iov_set_free(mk_io, buf)`. -/
def register_if_owned (MK_IOV_FREE_BUF : Int) (mk_io : mk_iov) (buf : Ptr) (free : Int) :
    Option mk_iov :=
  if free = MK_IOV_FREE_BUF then _mk_iov_set_free mk_io buf else pure mk_io

/-- Embedding of `mk_iov_add_entry(mk_io, buf, len, sep, free)`, lines 44-75;
the result is the new state with the returned `int`. -/
def mk_iov_add_entry (MK_IOV_FREE_BUF : Int) (mk_io : mk_iov) (buf : Ptr) (len : Int)
    (sep : mk_pointer) (free : Int) : Option (mk_iov × Int) := do
  let s2 ← add_entry_segments mk_io buf len sep
  let s3 ← register_if_owned MK_IOV_FREE_BUF s2 buf free
  pure (s3, s3.iov_idx)

/-- Embedding of `mk_iov_set_entry(mk_io, buf, len, free, idx)`, lines 77-90. -/
def mk_iov_set_entry (MK_IOV_FREE_BUF : Int) (mk_io : mk_iov) (buf : Ptr) (len : Int)
    (free : Int) (idx : Int) : Option (mk_iov × Int) := do
  let io1 ← store mk_io.io idx ⟨buf, to_size_t len⟩
  let s1 : mk_iov := { mk_io with io := io1, total_len := mk_io.total_len + len }
  let s2 ← register_if_owned MK_IOV_FREE_BUF s1 buf free
  pure (s2, 0)

/-- The loop `for (i = 0; i < limit; i++) mk_mem_free(buf_to_free[i])` entered
at index `i` with `k` iterations left; the result lists the freed pointers. -/
def free_marked_loop (buf_to_free : List Ptr) : Nat → Int → Option (List Ptr)
  | 0, _ => some []
  | k + 1, i =>
    match load buf_to_free i with
    | none => none
    | some p =>
      match free_marked_loop buf_to_free k (i + 1) with
      | none => none
      | some ps => some (p :: ps)

/-- Embedding of `mk_iov_free_marked(mk_io)`, lines 112-131: the new state and
the pointers passed to `mk_mem_free`, in order. -/
def mk_iov_free_marked (mk_io : mk_iov) : Option (mk_iov × List Ptr) :=
  let limit := mk_io.buf_idx
  match free_marked_loop mk_io.buf_to_free limit.toNat 0 with
  | none => none
  | some freed => some ({ mk_io with iov_idx := 0, buf_idx := 0 }, freed)

/-- The segments `mk_iov_send` hands to `writev`: indices `0` up to the cursor. -/
def active_segments (mk_io : mk_iov) : List iovec :=
  mk_io.io.take mk_io.iov_idx.toNat

/-- The registered part of the release list, `buf_to_free[0..buf_idx)`. -/
def release_list (mk_io : mk_iov) : List Ptr :=
  mk_io.buf_to_free.take mk_io.buf_idx.toNat

/-- One call on a buffer, with its arguments. -/
inductive Call where
  | add_entry (buf : Ptr) (len : Int) (sep : mk_pointer) (free : Int)
  | set_entry (buf : Ptr) (len : Int) (free : Int) (idx : Int)
  | free_marked
deriving DecidableEq

/-- Effect of one call on the state (return values dropped). -/
def step (MK_IOV_FREE_BUF : Int) (s : mk_iov) : Call → Option mk_iov
  | Call.add_entry buf len sep free =>
    (mk_iov_add_entry MK_IOV_FREE_BUF s buf len sep free).map Prod.fst
  | Call.set_entry buf len free idx =>
    (mk_iov_set_entry MK_IOV_FREE_BUF s buf len free idx).map Prod.fst
  | Call.free_marked => (mk_iov_free_marked s).map Prod.fst

/-- Effect of a sequence of calls, left to right. -/
def run (MK_IOV_FREE_BUF : Int) : mk_iov → List Call → Option mk_iov
  | s, [] => some s
  | s, c :: cs =>
    match step MK_IOV_FREE_BUF s c with
    | none => none
    | some s1 => run MK_IOV_FREE_BUF s1 cs

/-! ## Auxiliary definitions for the statements about `iov.c` -/

/-- Release-list part of the caller precondition: room for one more handle
when ownership is transferred. -/
def release_room (MK_IOV_FREE_BUF : Int) (s : mk_iov) (free : Int) : Prop :=
  free = MK_IOV_FREE_BUF → 0 ≤ s.buf_idx ∧ s.buf_idx < s.buf_to_free.length

instance (FB : Int) (s : mk_iov) (free : Int) : Decidable (release_room FB s free) := by
  unfold release_room; infer_instance

/-- State after the ownership step `if (free == MK_IOV_FREE_BUF) _mk_iov_set_free(...)`. -/
def registered (MK_IOV_FREE_BUF : Int) (s : mk_iov) (buf : Ptr) (free : Int) : mk_iov :=
  if free = MK_IOV_FREE_BUF then
    { s with buf_to_free := s.buf_to_free.set s.buf_idx.toNat buf, buf_idx := s.buf_idx + 1 }
  else s

/-- State after the segment writes of `mk_iov_add_entry`. -/
def appended (s : mk_iov) (buf : Ptr) (len : Int) (sep : mk_pointer) : mk_iov :=
  if sep.len > 0 then
    { s with io := (s.io.set s.iov_idx.toNat ⟨buf, to_size_t len⟩).set (s.iov_idx + 1).toNat
                     ⟨sep.data, sep.len⟩,
             iov_idx := s.iov_idx + 1 + 1,
             total_len := s.total_len + len + sep.len }
  else
    { s with io := s.io.set s.iov_idx.toNat ⟨buf, to_size_t len⟩,
             iov_idx := s.iov_idx + 1,
             total_len := s.total_len + len }

/-- Shape invariant of a buffer whose arrays have `N` cells: both arrays keep
their allocated length and the release count stays inside the release array. -/
def inv (N : Nat) (s : mk_iov) : Prop :=
  s.io.length = N ∧ s.buf_to_free.length = N ∧ 0 ≤ s.buf_idx ∧ s.buf_idx ≤ N

/-- Sum of the `iov_len` fields of a list of segments. -/
def len_sum (segs : List iovec) : Int :=
  (segs.map iovec.iov_len).sum

/-- The data pointers a call sequence passes with the ownership flag set, in call order. -/
def owned_ptrs (MK_IOV_FREE_BUF : Int) : List Call → List Ptr
  | [] => []
  | Call.add_entry buf _ _ free :: cs =>
    if free = MK_IOV_FREE_BUF then buf :: owned_ptrs MK_IOV_FREE_BUF cs
    else owned_ptrs MK_IOV_FREE_BUF cs
  | Call.set_entry buf _ free _ :: cs =>
    if free = MK_IOV_FREE_BUF then buf :: owned_ptrs MK_IOV_FREE_BUF cs
    else owned_ptrs MK_IOV_FREE_BUF cs
  | Call.free_marked :: cs => owned_ptrs MK_IOV_FREE_BUF cs

/-- The call is a `mk_iov_add_entry` or a `mk_iov_set_entry`. -/
def Call.is_entry : Call → Prop
  | Call.free_marked => False
  | _ => True

instance : DecidablePred Call.is_entry := fun c => by
  cases c <;> unfold Call.is_entry <;> infer_instance

/-- Segments `lo..cursor` of a state. -/
def segments_from (lo : Int) (s : mk_iov) : List iovec :=
  (active_segments s).drop lo.toNat

/-- The length stored in slot `i` of the segment array (0 outside the array). -/
def len_at (s : mk_iov) (i : Int) : Int :=
  match load s.io i with
  | some v => v.iov_len
  | none => 0

/-- Sum of the lengths stored in the slots `idxs`. -/
def reserved_sum (s : mk_iov) (idxs : List Int) : Int :=
  (idxs.map (len_at s)).sum

/-- The indices a call sequence passes to `mk_iov_set_entry`, in call order. -/
def set_indices : List Call → List Int
  | [] => []
  | Call.set_entry _ _ _ idx :: cs => idx :: set_indices cs
  | _ :: cs => set_indices cs

/-- Every segment is counted once: the calls are `mk_iov_add_entry` and
`mk_iov_set_entry` calls with a length `0 <= len < 2^64`, and each
`mk_iov_set_entry` fills a reserved slot (`0 <= idx < offset`) that is not among
the slots `done` filled before. -/
def counts_once (offset : Int) : List Int → List Call → Bool
  | _, [] => true
  | done, Call.add_entry _ len _ _ :: cs =>
    decide (0 ≤ len) && decide (len < 2 ^ 64) && counts_once offset done cs
  | done, Call.set_entry _ len _ idx :: cs =>
    decide (0 ≤ len) && decide (len < 2 ^ 64) && decide (0 ≤ idx) && decide (idx < offset) &&
      decide (idx ∉ done) && counts_once offset (done ++ [idx]) cs
  | _, Call.free_marked :: _ => false

/-! ## `plugins/cgi/cgi.c`

A byte (`char`) is a `Char`; only equality of bytes is used.  The system calls
`write` and `read` are the environment: `write` is a function from the call
number and the bytes offered to the value returned, and the results of the
successive `read` calls are a list of chunks. -/

/-- The enum constant `PATHLEN`, line 40. -/
def PATHLEN : Nat := 1024

/-- The enum constant `SHORTLEN`, line 41. -/
def SHORTLEN : Nat := 36

/-- The conversion of a `size_t` to `ssize_t` (64-bit two's complement). -/
def to_ssize (count : Nat) : Int :=
  if count % 2 ^ 64 < 2 ^ 63 then (count % 2 ^ 64 : Nat) else ((count % 2 ^ 64 : Nat) : Int) - 2 ^ 64

/-- One call `write(fd, buf, pos)` made by `swrite`: the `pos` bytes at `buf`
that were offered, and the value `write` returned. -/
structure WriteCall where
  offered : List Char
  ret : Int
deriving DecidableEq

/-- The bytes a `write` call took from those offered. -/
def WriteCall.accepted (c : WriteCall) : List Char :=
  c.offered.take c.ret.toNat

/-- The loop of `swrite`, lines 54-58.  `data` is the caller's buffer, `off` the
distance of the moving pointer `buf` from its start, `i` the number of `write`
calls made so far; the result is the final `ret` with the calls made from here on.
`fuel` bounds the number of iterations. -/
def swrite_loop (write : Nat → List Char → Int) (data : List Char) :
    Nat → Nat → Int → Int → Int → Option (Int × List WriteCall)
  | 0, _, _, pos, ret => if pos > 0 ∧ ret ≥ 0 then none else some (ret, [])
  | fuel + 1, i, off, pos, ret =>
    if pos > 0 ∧ ret ≥ 0 then
      let offered := (data.drop off.toNat).take pos.toNat
      let ret := write i offered
      match swrite_loop write data fuel (i + 1) (off + ret) (pos - ret) ret with
      | none => none
      | some (last, calls) => some (last, ⟨offered, ret⟩ :: calls)
    else some (ret, [])

/-- Embedding of `swrite(fd, buf, count)`, lines 50-64: the returned `int` and
the `write` calls made. -/
def swrite (write : Nat → List Char → Int) (buf : List Char) (count : Nat) (fuel : Nat) :
    Option (Int × List WriteCall) :=
  match swrite_loop write buf fuel 0 0 (to_ssize count) 0 with
  | none => none
  | some (ret, calls) => some (if ret < 0 then 0 else 1, calls)

/-- Each call offers exactly the bytes not yet accepted: the first call offers
`rest`, and the following ones what is left of it after the accepted bytes. -/
def offers_suffixes : List Char → List WriteCall → Prop
  | _, [] => True
  | rest, c :: cs => c.offered = rest ∧ offers_suffixes (rest.drop c.ret.toNat) cs

/-- The recorded calls are the calls made to `write`, numbered from `i`: each
recorded value is what `write` returned for the bytes offered. -/
def made_by (write : Nat → List Char → Int) : Nat → List WriteCall → Prop
  | _, [] => True
  | i, c :: cs => c.ret = write i c.offered ∧ made_by write (i + 1) cs

/-- An example destination: every `write` accepts at most two of the bytes offered. -/
def write_two : Nat → List Char → Int :=
  fun _ offered => min 2 (offered.length : Int)

/-- The literal `"Status: "` of line 241. -/
def STATUS_LITERAL : List Char := "Status: ".toList

/-- The literal `"HTTP"` of line 248. -/
def HTTP_LITERAL : List Char := "HTTP".toList

/-- The literal `"HTTP/1.0 "` of line 242. -/
def HTTP10 : List Char := "HTTP/1.0 ".toList

/-- The literal `"HTTP/1.0 200 OK\r\n"` of line 249, without its terminating
NUL: the `sizeof(...) - 1 = 17` bytes handed to `swrite`. -/
def HTTP10_200 : List Char := "HTTP/1.0 200 OK\r\n".toList

/-- The relay loop of `do_cgi`, lines 234-256.  `reads` lists what the
successive `read(readpipe[0], buf, PATHLEN)` calls deliver; an empty element, or
the end of the list, is a `read` returning `count <= 0`.  The result lists the
buffers handed to `swrite(socket, ...)`, in call order. -/
def relay_loop : List (List Char) → Bool → List (List Char)
  | [], _ => []
  | buf :: reads, headers_done =>
    let count : Int := buf.length
    if count > 0 then
      if ¬ headers_done then
        if count ≥ 8 ∧ buf.take 8 = STATUS_LITERAL then
          HTTP10 :: (buf.drop 8).take (count - 8).toNat :: relay_loop reads true
        else if count ≥ 4 then
          if buf.take 4 ≠ HTTP_LITERAL then
            HTTP10_200 :: buf.take count.toNat :: relay_loop reads true
          else buf.take count.toNat :: relay_loop reads true
        else buf.take count.toNat :: relay_loop reads headers_done
      else buf.take count.toNat :: relay_loop reads headers_done
    else []

/-- The bytes the relay loop hands to `swrite` for the client socket, in order,
starting with `headers_done = 0`. -/
def relay_sent (reads : List (List Char)) : List Char :=
  (relay_loop reads false).flatten

/-- One iteration of the relay loop of `do_cgi`, lines 237-255, on a chunk of
`count = buf.length > 0` bytes: the buffers handed to `swrite`, and the value of
`headers_done` afterwards. -/
def relay_step (buf : List Char) (headers_done : Bool) : List (List Char) × Bool :=
  let count : Int := buf.length
  if ¬ headers_done then
    if count ≥ 8 ∧ buf.take 8 = STATUS_LITERAL then
      ([HTTP10, (buf.drop 8).take (count - 8).toNat], true)
    else if count ≥ 4 then
      if buf.take 4 ≠ HTTP_LITERAL then ([HTTP10_200, buf.take count.toNat], true)
      else ([buf.take count.toNat], true)
    else ([buf.take count.toNat], headers_done)
  else ([buf.take count.toNat], headers_done)

/-- The value of `headers_done` after the relay loop has handled the chunks. -/
def headers_done_after : List (List Char) → Bool → Bool
  | [], headers_done => headers_done
  | buf :: reads, headers_done => headers_done_after reads (relay_step buf headers_done).2

/-- The caller precondition of `mk_iov_add_entry` along a call sequence started
at cursor `cursor` on a buffer of capacity `size`: every call is a
`mk_iov_add_entry`, made when `cursor + 1 <= size`, or `cursor + 2 <= size` if
its separator is non-empty (`sep.len > 0`). -/
def adds_fit (size : Int) : Int → List Call → Bool
  | _, [] => true
  | cursor, Call.add_entry _ _ sep _ :: cs =>
    decide (cursor + (if sep.len > 0 then 2 else 1) ≤ size) &&
      adds_fit size (cursor + (if sep.len > 0 then 2 else 1)) cs
  | _, _ :: _ => false

/-- Invariant of the runs of fitting `mk_iov_add_entry` calls on a buffer made
by `mk_iov_create(n, offset)`. -/
def fit_inv (n offset : Int) (s : mk_iov) : Prop :=
  s.io.length = n.toNat ∧ s.buf_to_free.length = n.toNat ∧ s.size = n ∧
    offset ≤ s.iov_idx ∧ 0 ≤ s.buf_idx ∧ s.buf_idx ≤ s.iov_idx - offset ∧ s.iov_idx ≤ n

/-! ## Environment construction of `do_cgi`, lines 77-164

`session_request`, `mk_pointer`, the `mk_api` functions and the constants
`HTTP_PROTOCOL_11`, `HTTP_PROTOCOL_11_STR`, `HTTP_PROTOCOL_10_STR` and
`INET6_ADDRSTRLEN` are declared in headers that are not part of the sources: the
request carries the fields `do_cgi` reads, and the constants are the fields of a
parameter.  A `char *` that is read is given by the bytes stored at it. -/

/-- The byte that ends a C string. -/
def NUL : Char := Char.ofNat 0

/-- The C string stored at a pointer whose memory holds `mem`: the bytes before
the first NUL.  It is what `%s` prints. -/
def c_str (mem : List Char) : List Char :=
  mem.takeWhile (fun c => decide (c ≠ NUL))

/-- What `snprintf(buf, size, ...)` leaves in `buf` as a C string when the
formatted text is `text`: its first `size - 1` bytes. -/
def snprintf (size : Nat) (text : List Char) : List Char :=
  text.take (size - 1)

/-- The conversion `(int) x` of an `unsigned long` (32-bit two's complement). -/
def to_int (x : Nat) : Int :=
  if x % 2 ^ 32 < 2 ^ 31 then (x % 2 ^ 32 : Nat) else ((x % 2 ^ 32 : Nat) : Int) - 2 ^ 32

/-- What `%.*s` prints for precision `prec` and the memory `mem`: the C string,
cut to `prec` bytes unless `prec` is negative. -/
def fmt_prec_s (prec : Int) (mem : List Char) : List Char :=
  if prec < 0 then c_str mem else (c_str mem).take prec.toNat

/-- What `%lu` prints: the decimal digits. -/
def fmt_lu (n : Nat) : List Char :=
  Nat.toDigits 10 n

/-- What `%ld` prints: the decimal digits, after `-` for a negative value. -/
def fmt_ld (v : Int) : List Char :=
  if v < 0 then '-' :: Nat.toDigits 10 v.natAbs else Nat.toDigits 10 v.toNat

/-- A `mk_pointer` that is read through: the bytes stored at `data`, and `len`. -/
structure mk_pointer_mem where
  data : List Char
  len : Nat
deriving DecidableEq

/-- The fields of `struct session_request` read by `do_cgi`;
`host_signature` is `sr->host_conf->host_signature`. -/
structure session_request where
  method_p : mk_pointer_mem
  host_signature : List Char
  host : mk_pointer_mem
  protocol : Int
  query_string : mk_pointer_mem
  port : Int
  data : mk_pointer_mem
  content_type : mk_pointer_mem
deriving DecidableEq

/-- The constants `do_cgi` takes from headers outside the sources. -/
structure cgi_headers where
  HTTP_PROTOCOL_11 : Int
  HTTP_PROTOCOL_11_STR : List Char
  HTTP_PROTOCOL_10_STR : List Char
  INET6_ADDRSTRLEN : Nat
deriving DecidableEq

/-- Line 104: `snprintf(method, SHORTLEN, "REQUEST_METHOD=%s", sr->method_p.data)`. -/
def env_method (sr : session_request) : List Char :=
  snprintf SHORTLEN ("REQUEST_METHOD=".toList ++ c_str sr.method_p.data)

/-- Line 107: `snprintf(server_software, SHORTLEN, "SERVER_SOFTWARE=%s", ...host_signature)`. -/
def env_server_software (sr : session_request) : List Char :=
  snprintf SHORTLEN ("SERVER_SOFTWARE=".toList ++ c_str sr.host_signature)

/-- Line 110: `snprintf(http_host, SHORTLEN, "HTTP_HOST=%.*s", (int) sr->host.len, sr->host.data)`. -/
def env_http_host (sr : session_request) : List Char :=
  snprintf SHORTLEN ("HTTP_HOST=".toList ++ fmt_prec_s (to_int sr.host.len) sr.host.data)

/-- Lines 113-119: the protocol string chosen, and
`snprintf(server_protocol, SHORTLEN, "SERVER_PROTOCOL=%s", protocol)`. -/
def env_server_protocol (H : cgi_headers) (sr : session_request) : List Char :=
  let protocol :=
    if sr.protocol = H.HTTP_PROTOCOL_11 then H.HTTP_PROTOCOL_11_STR else H.HTTP_PROTOCOL_10_STR
  snprintf SHORTLEN ("SERVER_PROTOCOL=".toList ++ c_str protocol)

/-- Lines 123-124: the zero-filled block of `query_string.len + 1` bytes after
the `memcpy` of `query_string.len` bytes. -/
def query_copy (sr : session_request) : List Char :=
  sr.query_string.data.take sr.query_string.len ++ [NUL]

/-- Lines 122-129: `request_uri`, with `?query` when `sr->query_string.len` is not 0. -/
def env_request_uri (url : List Char) (sr : session_request) : List Char :=
  if sr.query_string.len ≠ 0 then
    snprintf PATHLEN ("REQUEST_URI=".toList ++ c_str url ++ "?".toList ++ c_str (query_copy sr))
  else
    snprintf PATHLEN ("REQUEST_URI=".toList ++ c_str url)

/-- Line 132: `snprintf(script_filename, PATHLEN, "SCRIPT_FILENAME=%s", file)`. -/
def env_script_filename (file : List Char) : List Char :=
  snprintf PATHLEN ("SCRIPT_FILENAME=".toList ++ c_str file)

/-- Line 135: `snprintf(script_name, PATHLEN, "SCRIPT_NAME=%s", url)`. -/
def env_script_name (url : List Char) : List Char :=
  snprintf PATHLEN ("SCRIPT_NAME=".toList ++ c_str url)

/-- Line 139: `snprintf(query_string, PATHLEN, "QUERY_STRING=%s", query)`. -/
def env_query_string (sr : session_request) : List Char :=
  snprintf PATHLEN ("QUERY_STRING=".toList ++ c_str (query_copy sr))

/-- Lines 144-146: `tmpaddr` as left by `socket_ip_str` (`ip_text`), its first
byte set to NUL when the call returned a negative value `ip_ret`, and
`snprintf(remote_addr, INET6_ADDRSTRLEN+SHORTLEN, "REMOTE_ADDR=%s", tmpaddr)`. -/
def env_remote_addr (H : cgi_headers) (ip_ret : Int) (ip_text : List Char) : List Char :=
  let tmpaddr := if ip_ret < 0 then NUL :: ip_text.drop 1 else ip_text
  snprintf (H.INET6_ADDRSTRLEN + SHORTLEN) ("REMOTE_ADDR=".toList ++ c_str tmpaddr)

/-- Line 149: `snprintf(remote_port, SHORTLEN, "REMOTE_PORT=%ld", sr->port)`. -/
def env_remote_port (sr : session_request) : List Char :=
  snprintf SHORTLEN ("REMOTE_PORT=".toList ++ fmt_ld sr.port)

/-- Line 153: `snprintf(content_length, SHORTLEN, "CONTENT_LENGTH=%lu", sr->data.len)`. -/
def env_content_length (sr : session_request) : List Char :=
  snprintf SHORTLEN ("CONTENT_LENGTH=".toList ++ fmt_lu sr.data.len)

/-- Line 158: `snprintf(content_type, SHORTLEN, "CONTENT_TYPE=%s", sr->content_type.data)`. -/
def env_content_type (sr : session_request) : List Char :=
  snprintf SHORTLEN ("CONTENT_TYPE=".toList ++ c_str sr.content_type.data)

/-- The environment array built by `do_cgi`, lines 77-164: the entries
`env[0..envpos)` before the NULL sentinel, in order. -/
def do_cgi_env (H : cgi_headers) (file url : List Char) (ip_ret : Int) (ip_text : List Char)
    (sr : session_request) : List (List Char) :=
  let env : List (List Char) :=
    ["PATH_INFO=".toList, "GATEWAY_INTERFACE=CGI/1.1".toList, "REDIRECT_STATUS=200".toList]
  let env := env ++ [env_method sr]
  let env := env ++ [env_server_software sr]
  let env := env ++ [env_http_host sr]
  let env := env ++ [env_server_protocol H sr]
  let env := env ++ [env_request_uri url sr]
  let env := env ++ [env_script_filename file]
  let env := env ++ [env_script_name url]
  let env := if sr.query_string.len ≠ 0 then env ++ [env_query_string sr] else env
  let env := env ++ [env_remote_addr H ip_ret ip_text]
  let env := env ++ [env_remote_port sr]
  let env := if sr.data.len ≠ 0 then env ++ [env_content_length sr] else env
  let env := if sr.content_type.len ≠ 0 then env ++ [env_content_type sr] else env
  env

/-- The name of an environment entry `NAME=value`: the bytes before the first `=`. -/
def entry_name (e : List Char) : List Char :=
  e.takeWhile (fun c => decide (c ≠ '='))

/-- The value of an environment entry `NAME=value`: the bytes after the first `=`. -/
def entry_value (e : List Char) : List Char :=
  (e.dropWhile (fun c => decide (c ≠ '='))).drop 1

/-- The value of the first entry of `env` named `name`. -/
def env_lookup (name : List Char) (env : List (List Char)) : Option (List Char) :=
  (env.find? (fun e => decide (entry_name e = name))).map entry_value

/-- The twelve names every environment holds. -/
def unconditional_names : List (List Char) :=
  ["PATH_INFO".toList, "GATEWAY_INTERFACE".toList, "REDIRECT_STATUS".toList,
   "REQUEST_METHOD".toList, "SERVER_SOFTWARE".toList, "HTTP_HOST".toList,
   "SERVER_PROTOCOL".toList, "REQUEST_URI".toList, "SCRIPT_FILENAME".toList,
   "SCRIPT_NAME".toList, "REMOTE_ADDR".toList, "REMOTE_PORT".toList]

/-- Header constants used in the examples: the two protocol strings and the
POSIX value of `INET6_ADDRSTRLEN`. -/
def example_headers : cgi_headers :=
  { HTTP_PROTOCOL_11 := 11, HTTP_PROTOCOL_11_STR := "HTTP/1.1".toList,
    HTTP_PROTOCOL_10_STR := "HTTP/1.0".toList, INET6_ADDRSTRLEN := 46 }

/-- An example request, `POST /x.cgi?a=1&b=2` with a body of 1234 bytes; the
pointers of `host`, `query_string` and `content_type` point into the request text. -/
def example_request : session_request :=
  { method_p := ⟨"POST".toList, 4⟩
    host_signature := "Monkey/0.9".toList
    host := ⟨"example.org\r\nContent-Type: text/plain\r\n".toList, 11⟩
    protocol := 11
    query_string := ⟨"a=1&b=2 HTTP/1.1\r\n".toList, 7⟩
    port := 8080
    data := ⟨"body".toList, 1234⟩
    content_type := ⟨"text/plain".toList, 10⟩ }

/-- The size of the buffer `do_cgi` formats the entry called `name` into:
`SHORTLEN` (36) for the seven short fields, `PATHLEN` (1024) for the four path
fields, and `INET6_ADDRSTRLEN + SHORTLEN` for `REMOTE_ADDR`. -/
def field_size (H : cgi_headers) (name : List Char) : Nat :=
  if name ∈ ["REQUEST_METHOD".toList, "SERVER_SOFTWARE".toList, "HTTP_HOST".toList,
      "SERVER_PROTOCOL".toList, "REMOTE_PORT".toList, "CONTENT_LENGTH".toList,
      "CONTENT_TYPE".toList] then 36
  else if name ∈ ["REQUEST_URI".toList, "SCRIPT_FILENAME".toList, "SCRIPT_NAME".toList,
      "QUERY_STRING".toList] then 1024
  else H.INET6_ADDRSTRLEN + 36

/-- The untruncated texts `NAME=value` of the dynamic entries, in the order of
the environment array: what the formats of lines 104-158 produce before any
buffer size is applied. -/
def untruncated_env (H : cgi_headers) (file url : List Char) (ip_ret : Int)
    (ip_text : List Char) (sr : session_request) : List (List Char) :=
  ["REQUEST_METHOD=".toList ++ c_str sr.method_p.data,
   "SERVER_SOFTWARE=".toList ++ c_str sr.host_signature,
   "HTTP_HOST=".toList ++ fmt_prec_s (to_int sr.host.len) sr.host.data,
   "SERVER_PROTOCOL=".toList ++ c_str
      (if sr.protocol = H.HTTP_PROTOCOL_11 then H.HTTP_PROTOCOL_11_STR
       else H.HTTP_PROTOCOL_10_STR),
   "REQUEST_URI=".toList ++
      (if sr.query_string.len ≠ 0 then c_str url ++ "?".toList ++ c_str (query_copy sr)
       else c_str url),
   "SCRIPT_FILENAME=".toList ++ c_str file,
   "SCRIPT_NAME=".toList ++ c_str url] ++
  (if sr.query_string.len ≠ 0 then ["QUERY_STRING=".toList ++ c_str (query_copy sr)] else []) ++
  ["REMOTE_ADDR=".toList ++ (if ip_ret < 0 then [] else c_str ip_text),
   "REMOTE_PORT=".toList ++ fmt_ld sr.port] ++
  (if sr.data.len ≠ 0 then ["CONTENT_LENGTH=".toList ++ fmt_lu sr.data.len] else []) ++
  (if sr.content_type.len ≠ 0 then ["CONTENT_TYPE=".toList ++ c_str sr.content_type.data]
   else [])

/-- A text cut to the buffer of the field it names: its first `B - 1` bytes. -/
def truncated (H : cgi_headers) (text : List Char) : List Char :=
  text.take (field_size H (entry_name text) - 1)

/-! ## Pipes, process creation and the parent path of `do_cgi`, lines 166-264 -/

/-- The calls `do_cgi` makes to its environment, with what they return or are
given.  `child` stands for the child path, lines 180-214, which ends in
`execve` or `_exit` and never returns into the caller. -/
inductive SysCall where
  | pipe (ret : Int)
  | vfork (pid : Int)
  | mk_err
  | child (file : List Char) (env : List (List Char))
  | close
  | socket_cork_flag (flag : Bool)
  | worker_spawn
  | read (got : List Char)
  | swrite (payload : List Char)
deriving DecidableEq

/-- The calls made by the relay loop, lines 236-256: each `read`, followed by
the `swrite` calls of its iteration; the loop ends with the `read` that returns
`count <= 0` (an empty element, or the end of `reads`). -/
def relay_calls : List (List Char) → Bool → List SysCall
  | [], _ => [SysCall.read []]
  | buf :: reads, headers_done =>
    let count : Int := buf.length
    if count > 0 then
      SysCall.read buf ::
        ((relay_step buf headers_done).1.map SysCall.swrite ++
          relay_calls reads (relay_step buf headers_done).2)
    else [SysCall.read buf]

/-- Embedding of `do_cgi`, lines 74-264.  `pipe_w`, `pipe_r` and `pid` are what
`pipe(writepipe)`, `pipe(readpipe)` and `vfork()` return when they are called,
`reads` what the reads of the child's output deliver.  The result is the value
returned to the caller (`none` in the child, which does not return) and the
calls made, in order. -/
def do_cgi (H : cgi_headers) (file url : List Char) (ip_ret : Int) (ip_text : List Char)
    (sr : session_request) (pipe_w pipe_r pid : Int) (reads : List (List Char)) :
    Option Int × List SysCall :=
  let env := do_cgi_env H file url ip_ret ip_text sr
  if pipe_w ≠ 0 then (some 403, [SysCall.pipe pipe_w, SysCall.mk_err])
  else if pipe_r ≠ 0 then
    (some 403, [SysCall.pipe pipe_w, SysCall.pipe pipe_r, SysCall.mk_err])
  else if pid < 0 then
    (some 403, [SysCall.pipe pipe_w, SysCall.pipe pipe_r, SysCall.vfork pid, SysCall.mk_err])
  else if pid = 0 then
    (none, [SysCall.pipe pipe_w, SysCall.pipe pipe_r, SysCall.vfork pid,
      SysCall.child file env])
  else
    (some 200,
      [SysCall.pipe pipe_w, SysCall.pipe pipe_r, SysCall.vfork pid, SysCall.close,
        SysCall.close, SysCall.socket_cork_flag true] ++
      (if sr.data.len ≠ 0 then [SysCall.worker_spawn] else []) ++
      relay_calls reads false ++
      [SysCall.close, SysCall.close, SysCall.socket_cork_flag false])

/-- The call reads from the child or writes to the client socket. -/
def SysCall.is_transfer : SysCall → Bool
  | SysCall.read _ => true
  | SysCall.swrite _ => true
  | _ => false

/-- The buffer a `swrite` call hands over for the client socket. -/
def SysCall.payload : SysCall → Option (List Char)
  | SysCall.swrite p => some p
  | _ => none

/-! ## `cgi_read_config`, lines 266-300 -/

/-- The loop of lines 282-286 on the memory at `match`:
`while (*p) { if (*p == ' ') *p = '|'; p++; }`. -/
def rewrite_match : List Char → List Char
  | [] => []
  | c :: cs =>
    if c = NUL then c :: cs
    else (if c = ' ' then '|' else c) :: rewrite_match cs

/-! ## Lemmas and theorems about `iov.c` -/

theorem store_eq_some_iff {α : Type} (xs ys : List α) (i : Int) (v : α) :
    store xs i v = some ys ↔ (0 ≤ i ∧ i < xs.length) ∧ ys = xs.set i.toNat v := by
  unfold store
  split_ifs with h
  · simp [h, eq_comm]
  · simp [h]

theorem load_of_bounds {α : Type} (xs : List α) (n : Nat) (h : n < xs.length) :
    load xs (n : Int) = some (xs.get ⟨n, h⟩) := by
  simp [load, h, List.getElem?_eq_getElem]

theorem free_marked_loop_eq (bufs : List Ptr) :
    ∀ (k n : Nat), n + k ≤ bufs.length →
      free_marked_loop bufs k (n : Int) = some ((bufs.drop n).take k) := by
  intro k
  induction k with
  | zero => intro n _; simp [free_marked_loop]
  | succ k ih =>
    intro n hn
    have hlt : n < bufs.length := by omega
    have hnext := ih (n + 1) (by omega)
    have hcast : ((n : Int) + 1) = ((n + 1 : Nat) : Int) := by push_cast; rfl
    rw [free_marked_loop, load_of_bounds bufs n hlt, hcast, hnext]
    simp only []
    rw [List.drop_eq_getElem_cons hlt, List.take_succ_cons]
    rfl

theorem set_free_eq_some_iff (s s' : mk_iov) (buf : Ptr) :
    _mk_iov_set_free s buf = some s' ↔
      (0 ≤ s.buf_idx ∧ s.buf_idx < s.buf_to_free.length) ∧
        s' = { s with buf_to_free := s.buf_to_free.set s.buf_idx.toNat buf,
                      buf_idx := s.buf_idx + 1 } := by
  simp only [_mk_iov_set_free, Option.bind_eq_bind, Option.bind_eq_some, store_eq_some_iff,
    Option.pure_def, Option.some.injEq]
  constructor
  · rintro ⟨b, ⟨hb, rfl⟩, rfl⟩; exact ⟨hb, rfl⟩
  · rintro ⟨hb, rfl⟩; exact ⟨_, ⟨hb, rfl⟩, rfl⟩

theorem register_if_owned_eq_some_iff (FB : Int) (s s' : mk_iov) (buf : Ptr) (free : Int) :
    register_if_owned FB s buf free = some s' ↔
      release_room FB s free ∧ s' = registered FB s buf free := by
  unfold register_if_owned release_room registered
  by_cases hf : free = FB
  · simp only [hf, if_true, set_free_eq_some_iff, true_implies]
  · simp [hf, eq_comm]

theorem add_entry_segments_eq_some_iff (s s' : mk_iov) (buf : Ptr) (len : Int)
    (sep : mk_pointer) :
    add_entry_segments s buf len sep = some s' ↔
      (0 ≤ s.iov_idx ∧ s.iov_idx + (if sep.len > 0 then 2 else 1) ≤ s.io.length) ∧
        s' = appended s buf len sep := by
  unfold add_entry_segments appended
  by_cases hs : sep.len > 0
  · simp only [hs, if_true, Option.bind_eq_bind, Option.bind_eq_some, store_eq_some_iff,
      Option.pure_def, Option.some.injEq]
    constructor
    · rintro ⟨io1, ⟨h1, rfl⟩, io2, ⟨h2, rfl⟩, rfl⟩
      rw [List.length_set] at h2
      exact ⟨⟨h1.1, by omega⟩, rfl⟩
    · rintro ⟨h, rfl⟩
      refine ⟨_, ⟨⟨h.1, by omega⟩, rfl⟩, _, ⟨⟨?_, ?_⟩, rfl⟩, rfl⟩
      · show 0 ≤ s.iov_idx + 1
        omega
      · show s.iov_idx + 1 < _
        rw [List.length_set]; omega
  · simp only [hs, if_false, Option.bind_eq_bind, Option.bind_eq_some, store_eq_some_iff,
      Option.pure_def, Option.some.injEq]
    constructor
    · rintro ⟨io1, ⟨h1, rfl⟩, rfl⟩
      exact ⟨⟨h1.1, by omega⟩, rfl⟩
    · rintro ⟨h, rfl⟩
      exact ⟨_, ⟨⟨h.1, by omega⟩, rfl⟩, rfl⟩

theorem add_entry_eq_some_iff (FB : Int) (s : mk_iov) (buf : Ptr) (len : Int)
    (sep : mk_pointer) (free : Int) (s' : mk_iov) (r : Int) :
    mk_iov_add_entry FB s buf len sep free = some (s', r) ↔
      ((0 ≤ s.iov_idx ∧ s.iov_idx + (if sep.len > 0 then 2 else 1) ≤ s.io.length) ∧
        release_room FB (appended s buf len sep) free) ∧
      s' = registered FB (appended s buf len sep) buf free ∧ r = s'.iov_idx := by
  simp only [mk_iov_add_entry, Option.bind_eq_bind, Option.bind_eq_some,
    add_entry_segments_eq_some_iff, register_if_owned_eq_some_iff, Option.pure_def,
    Option.some.injEq, Prod.mk.injEq]
  constructor
  · rintro ⟨s2, ⟨h1, rfl⟩, s3, ⟨h2, rfl⟩, rfl, rfl⟩
    exact ⟨⟨h1, h2⟩, rfl, rfl⟩
  · rintro ⟨⟨h1, h2⟩, rfl, rfl⟩
    exact ⟨_, ⟨h1, rfl⟩, _, ⟨h2, rfl⟩, rfl, rfl⟩

theorem set_entry_eq_some_iff (FB : Int) (s : mk_iov) (buf : Ptr) (len : Int)
    (free idx : Int) (s' : mk_iov) (r : Int) :
    mk_iov_set_entry FB s buf len free idx = some (s', r) ↔
      ((0 ≤ idx ∧ idx < s.io.length) ∧
        release_room FB s free) ∧
      s' = registered FB { s with io := s.io.set idx.toNat ⟨buf, to_size_t len⟩,
                                  total_len := s.total_len + len } buf free ∧ r = 0 := by
  simp only [mk_iov_set_entry, Option.bind_eq_bind, Option.bind_eq_some,
    store_eq_some_iff, register_if_owned_eq_some_iff, Option.pure_def,
    Option.some.injEq, Prod.mk.injEq]
  constructor
  · rintro ⟨io1, ⟨h1, rfl⟩, s3, ⟨h2, rfl⟩, rfl, rfl⟩
    exact ⟨⟨h1, h2⟩, rfl, rfl⟩
  · rintro ⟨⟨h1, h2⟩, rfl, rfl⟩
    exact ⟨_, ⟨h1, rfl⟩, _, ⟨h2, rfl⟩, rfl, rfl⟩

theorem mk_mem_malloc_length {α : Type} (n : Int) (junk : Nat → α) :
    (mk_mem_malloc n junk).length = n.toNat := by
  simp [mk_mem_malloc]

theorem inv_create (n offset : Int) (junk_io : Nat → iovec) (junk_buf : Nat → Ptr) :
    inv n.toNat (mk_iov_create n offset junk_io junk_buf) := by
  simp [inv, mk_iov_create, mk_mem_malloc_length]

theorem registered_io (FB : Int) (s : mk_iov) (buf : Ptr) (free : Int) :
    (registered FB s buf free).io = s.io := by
  unfold registered; split_ifs <;> rfl

theorem registered_iov_idx (FB : Int) (s : mk_iov) (buf : Ptr) (free : Int) :
    (registered FB s buf free).iov_idx = s.iov_idx := by
  unfold registered; split_ifs <;> rfl

theorem registered_total_len (FB : Int) (s : mk_iov) (buf : Ptr) (free : Int) :
    (registered FB s buf free).total_len = s.total_len := by
  unfold registered; split_ifs <;> rfl

theorem appended_buf_to_free (s : mk_iov) (buf : Ptr) (len : Int) (sep : mk_pointer) :
    (appended s buf len sep).buf_to_free = s.buf_to_free := by
  unfold appended; split_ifs <;> rfl

theorem appended_buf_idx (s : mk_iov) (buf : Ptr) (len : Int) (sep : mk_pointer) :
    (appended s buf len sep).buf_idx = s.buf_idx := by
  unfold appended; split_ifs <;> rfl

theorem appended_io_length (s : mk_iov) (buf : Ptr) (len : Int) (sep : mk_pointer) :
    (appended s buf len sep).io.length = s.io.length := by
  unfold appended; split_ifs <;> simp

theorem release_room_appended (FB : Int) (s : mk_iov) (buf : Ptr) (len : Int)
    (sep : mk_pointer) (free : Int) :
    release_room FB (appended s buf len sep) free ↔ release_room FB s free := by
  unfold release_room
  rw [appended_buf_to_free, appended_buf_idx]

theorem inv_registered (FB : Int) (N : Nat) (s : mk_iov) (buf : Ptr) (free : Int)
    (h : inv N s) (hr : release_room FB s free) : inv N (registered FB s buf free) := by
  unfold registered
  split_ifs with hf
  · obtain ⟨h1, h2, h3, h4⟩ := h
    have := hr hf
    refine ⟨h1, ?_, ?_, ?_⟩
    · simp [h2]
    · show 0 ≤ s.buf_idx + 1
      omega
    · show s.buf_idx + 1 ≤ N
      omega
  · exact h

theorem free_marked_of_le (s : mk_iov) (h : s.buf_idx ≤ s.buf_to_free.length) :
    mk_iov_free_marked s =
      some ({ s with iov_idx := 0, buf_idx := 0 }, release_list s) := by
  have hk : 0 + s.buf_idx.toNat ≤ s.buf_to_free.length := by omega
  have := free_marked_loop_eq s.buf_to_free s.buf_idx.toNat 0 hk
  simp only [Nat.cast_zero, List.drop_zero] at this
  simp only [mk_iov_free_marked, this, release_list]

theorem inv_step (FB : Int) (N : Nat) (s s' : mk_iov) (c : Call)
    (h : inv N s) (hs : step FB s c = some s') : inv N s' := by
  cases c with
  | add_entry buf len sep free =>
    simp only [step, Option.map_eq_some', Prod.exists, exists_and_right, exists_eq_right] at hs
    obtain ⟨r, hs⟩ := hs
    rw [add_entry_eq_some_iff] at hs
    obtain ⟨⟨_, hr⟩, rfl, _⟩ := hs
    refine inv_registered FB N _ buf free ?_ hr
    obtain ⟨h1, h2, h3, h4⟩ := h
    exact ⟨by rw [appended_io_length, h1], by rw [appended_buf_to_free, h2],
      by rw [appended_buf_idx]; exact h3, by rw [appended_buf_idx]; exact h4⟩
  | set_entry buf len free idx =>
    simp only [step, Option.map_eq_some', Prod.exists, exists_and_right, exists_eq_right] at hs
    obtain ⟨r, hs⟩ := hs
    rw [set_entry_eq_some_iff] at hs
    obtain ⟨⟨_, hr⟩, rfl, _⟩ := hs
    refine inv_registered FB N _ buf free ?_ hr
    obtain ⟨h1, h2, h3, h4⟩ := h
    exact ⟨by simp [h1], h2, h3, h4⟩
  | free_marked =>
    obtain ⟨h1, h2, h3, h4⟩ := h
    simp only [step, free_marked_of_le s (by omega), Option.map_some', Option.some.injEq] at hs
    subst hs
    exact ⟨h1, h2, le_refl _, by simp⟩

theorem run_invariant (FB : Int) (P : mk_iov → Prop) (Q : Call → Prop)
    (hstep : ∀ s s' c, Q c → P s → step FB s c = some s' → P s') :
    ∀ (calls : List Call) (s s' : mk_iov), (∀ c ∈ calls, Q c) → P s →
      run FB s calls = some s' → P s' := by
  intro calls
  induction calls with
  | nil => intro s s' _ hP h; simp only [run, Option.some.injEq] at h; exact h ▸ hP
  | cons c cs ih =>
    intro s s' hQ hP h
    simp only [run] at h
    cases hc : step FB s c with
    | none => rw [hc] at h; exact absurd h (by simp)
    | some s1 =>
      rw [hc] at h
      exact ih s1 s' (fun d hd => hQ d (List.mem_cons_of_mem c hd))
        (hstep s s1 c (hQ c (List.mem_cons_self c cs)) hP hc) h

theorem inv_run (FB : Int) (N : Nat) (calls : List Call) (s s' : mk_iov)
    (h : inv N s) (hr : run FB s calls = some s') : inv N s' :=
  run_invariant FB (inv N) (fun _ => True) (fun a b c _ => inv_step FB N a b c) calls s s'
    (fun _ _ => trivial) h hr

theorem take_succ_set {α : Type} (v : α) :
    ∀ (l : List α) (k : Nat), k < l.length → (l.set k v).take (k + 1) = l.take k ++ [v]
  | [], _, h => by simp at h
  | _ :: _, 0, _ => by simp
  | x :: l, k + 1, h => by
    have := take_succ_set v l k (by simpa using h)
    simp [List.set_cons_succ, List.take_succ_cons, this]

theorem load_set_ne {α : Type} (l : List α) (k : Nat) (v : α) (j : Int)
    (h : j ≠ (k : Int)) : load (l.set k v) j = load l j := by
  unfold load
  simp only [List.length_set, List.get?_eq_getElem?]
  split_ifs with hj
  · rw [List.getElem?_set_ne (by omega)]
  · rfl

theorem load_set_self {α : Type} (l : List α) (k : Nat) (v : α) (h : k < l.length) :
    load (l.set k v) (k : Int) = some v := by
  unfold load
  simp only [List.length_set, List.get?_eq_getElem?, Int.toNat_ofNat]
  rw [if_pos ⟨by omega, by omega⟩, List.getElem?_set_self h]

theorem release_list_registered (FB : Int) (s : mk_iov) (buf : Ptr) (free : Int)
    (hroom : release_room FB s free) :
    release_list (registered FB s buf free) =
      release_list s ++ (if free = FB then [buf] else []) := by
  unfold registered release_list
  split_ifs with hf
  · have := hroom hf
    have hk : (s.buf_idx + 1).toNat = s.buf_idx.toNat + 1 := by omega
    show (s.buf_to_free.set s.buf_idx.toNat buf).take (s.buf_idx + 1).toNat = _
    rw [hk, take_succ_set buf _ _ (by omega)]
  · simp

theorem len_sum_append (xs ys : List iovec) : len_sum (xs ++ ys) = len_sum xs + len_sum ys := by
  simp [len_sum]

theorem segments_from_appended (lo : Int) (s : mk_iov) (buf : Ptr) (len : Int)
    (sep : mk_pointer) (hlo : lo ≤ s.iov_idx) (h0 : 0 ≤ s.iov_idx)
    (hcap : s.iov_idx + (if sep.len > 0 then 2 else 1) ≤ s.io.length) :
    segments_from lo (appended s buf len sep) =
      segments_from lo s ++
        (if sep.len > 0 then [⟨buf, to_size_t len⟩, ⟨sep.data, sep.len⟩]
         else [⟨buf, to_size_t len⟩]) := by
  have hlen : (s.io.take s.iov_idx.toNat).length = s.iov_idx.toNat := by
    rw [List.length_take]; split_ifs at hcap <;> omega
  unfold segments_from active_segments appended
  split_ifs with hs
  · have h1 : (s.iov_idx + 1 + 1).toNat = (s.iov_idx.toNat + 1) + 1 := by omega
    have h2 : (s.iov_idx + 1).toNat = s.iov_idx.toNat + 1 := by omega
    simp only [hs, if_true] at hcap
    show ((((s.io.set s.iov_idx.toNat ⟨buf, to_size_t len⟩).set (s.iov_idx + 1).toNat
      ⟨sep.data, sep.len⟩).take (s.iov_idx + 1 + 1).toNat).drop lo.toNat) = _
    rw [h1, h2, take_succ_set _ _ _ (by rw [List.length_set]; omega), take_succ_set _ _ _ (by omega),
      List.append_assoc, List.drop_append_of_le_length (by rw [hlen]; omega)]
    rfl
  · have h2 : (s.iov_idx + 1).toNat = s.iov_idx.toNat + 1 := by omega
    simp only [hs, if_false] at hcap
    show (((s.io.set s.iov_idx.toNat ⟨buf, to_size_t len⟩).take (s.iov_idx + 1).toNat).drop lo.toNat) = _
    rw [h2, take_succ_set _ _ _ (by omega), List.drop_append_of_le_length (by rw [hlen]; omega)]

theorem appended_total_len (s : mk_iov) (buf : Ptr) (len : Int) (sep : mk_pointer) :
    (appended s buf len sep).total_len =
      s.total_len + len + (if sep.len > 0 then sep.len else 0) := by
  unfold appended
  split_ifs <;> simp

theorem to_size_t_of_nonneg (v : Int) (h0 : 0 ≤ v) (h1 : v < 2 ^ 64) : to_size_t v = v := by
  unfold to_size_t
  exact Int.emod_eq_of_lt h0 h1

theorem appended_iov_idx (s : mk_iov) (buf : Ptr) (len : Int) (sep : mk_pointer) :
    (appended s buf len sep).iov_idx = s.iov_idx + (if sep.len > 0 then 2 else 1) := by
  unfold appended
  split_ifs
  · show s.iov_idx + 1 + 1 = s.iov_idx + 2
    omega
  · rfl

theorem segments_from_registered (FB lo : Int) (s : mk_iov) (buf : Ptr) (free : Int) :
    segments_from lo (registered FB s buf free) = segments_from lo s := by
  unfold segments_from active_segments
  rw [registered_io, registered_iov_idx]

theorem appended_load_cursor (s : mk_iov) (buf : Ptr) (len : Int) (sep : mk_pointer)
    (h0 : 0 ≤ s.iov_idx) (h1 : s.iov_idx < s.io.length) :
    load (appended s buf len sep).io s.iov_idx = some ⟨buf, to_size_t len⟩ := by
  have hlt : s.iov_idx.toNat < s.io.length := by omega
  have hne : (s.iov_idx + 1).toNat ≠ s.iov_idx.toNat := by omega
  unfold appended load
  split_ifs with hs hb hb
  · simp only [List.get?_eq_getElem?]
    rw [List.getElem?_set_ne hne, List.getElem?_set_self hlt]
  · simp only [List.length_set] at hb; omega
  · simp only [List.get?_eq_getElem?]
    rw [List.getElem?_set_self hlt]
  · simp only [List.length_set] at hb; omega

/-- C1 (as amended): for every buffer made by `mk_iov_create(n, offset)` and every
sequence of calls applied to it, `mk_iov_free_marked` succeeds and leaves the
cursor `iov_idx` at 0, whatever `offset` was; the next `mk_iov_add_entry` that
fits the capacity writes its segment at slot 0. -/
theorem mk_iov_free_marked_cursor_zero (MK_IOV_FREE_BUF n offset : Int)
    (junk_io : Nat → iovec) (junk_buf : Nat → Ptr) (calls : List Call) (s : mk_iov)
    (hrun : run MK_IOV_FREE_BUF (mk_iov_create n offset junk_io junk_buf) calls = some s) :
    ∃ s' freed, mk_iov_free_marked s = some (s', freed) ∧ s'.iov_idx = 0 ∧
      ∀ (buf : Ptr) (len : Int) (sep : mk_pointer) (free : Int),
        (if sep.len > 0 then 2 else 1) ≤ n →
        ∃ s2 r, mk_iov_add_entry MK_IOV_FREE_BUF s' buf len sep free = some (s2, r) ∧
          load s2.io 0 = some ⟨buf, to_size_t len⟩ := by
  have hinv := inv_run MK_IOV_FREE_BUF n.toNat calls _ s (inv_create n offset junk_io junk_buf) hrun
  obtain ⟨h1, h2, h3, h4⟩ := hinv
  refine ⟨{ s with iov_idx := 0, buf_idx := 0 }, release_list s,
    free_marked_of_le s (by omega), rfl, ?_⟩
  intro buf len sep free hcap
  have hn : (1 : Int) ≤ n := by split_ifs at hcap <;> omega
  refine ⟨_, _, (add_entry_eq_some_iff MK_IOV_FREE_BUF _ buf len sep free _ _).2
    ⟨⟨⟨le_refl _, ?_⟩, ?_⟩, rfl, rfl⟩, ?_⟩
  · show (0 : Int) + (if sep.len > 0 then 2 else 1) ≤ (s.io.length : Int)
    rw [h1]; split_ifs at hcap ⊢ <;> omega
  · rw [release_room_appended]
    intro _
    show (0 : Int) ≤ 0 ∧ (0 : Int) < (s.buf_to_free.length : Int)
    rw [h2]; omega
  · rw [registered_io]
    exact appended_load_cursor { s with iov_idx := 0, buf_idx := 0 } buf len sep (le_refl _)
      (by show (0 : Int) < (s.io.length : Int); rw [h1]; omega)

/-- Witness of C1 (as amended): a 4-slot buffer created at offset 1, after one owned add. -/
theorem mk_iov_free_marked_cursor_zero_witness :
    run 1 (mk_iov_create 4 1 (fun _ => ⟨0, 0⟩) (fun _ => 0)) [Call.add_entry 100 5 ⟨0, 0⟩ 1] =
      some { iov_idx := 2, io := [⟨0, 0⟩, ⟨100, 5⟩, ⟨0, 0⟩, ⟨0, 0⟩],
             buf_to_free := [100, 0, 0, 0], buf_idx := 1, total_len := 5, size := 4 } ∧
    ∃ s' freed,
      mk_iov_free_marked
          { iov_idx := 2, io := [⟨0, 0⟩, ⟨100, 5⟩, ⟨0, 0⟩, ⟨0, 0⟩],
            buf_to_free := [100, 0, 0, 0], buf_idx := 1, total_len := 5, size := 4 } =
        some (s', freed) ∧
      s'.iov_idx = 0 ∧
      ∀ (buf : Ptr) (len : Int) (sep : mk_pointer) (free : Int),
        (if sep.len > 0 then 2 else 1) ≤ (4 : Int) →
        ∃ s2 r, mk_iov_add_entry 1 s' buf len sep free = some (s2, r) ∧
          load s2.io 0 = some ⟨buf, to_size_t len⟩ :=
  ⟨by decide,
   mk_iov_free_marked_cursor_zero 1 4 1 (fun _ => ⟨0, 0⟩) (fun _ => 0)
    [Call.add_entry 100 5 ⟨0, 0⟩ 1] _ (by decide)⟩

/-- Counterexample to C1 as stated: a buffer created with offset 1 has its
cursor at 0, not 1, after `mk_iov_free_marked`, and the next
`mk_iov_add_entry` writes slot 0 and leaves slot 1 as it was. -/
theorem mk_iov_free_marked_cursor_not_offset :
    run 1 (mk_iov_create 4 1 (fun _ => ⟨0, 0⟩) (fun _ => 0))
        [Call.add_entry 100 5 ⟨0, 0⟩ 0, Call.free_marked] =
      some { iov_idx := 0, io := [⟨0, 0⟩, ⟨100, 5⟩, ⟨0, 0⟩, ⟨0, 0⟩],
             buf_to_free := [0, 0, 0, 0], buf_idx := 0, total_len := 5, size := 4 } ∧
    (0 : Int) ≠ 1 ∧
    run 1 (mk_iov_create 4 1 (fun _ => ⟨0, 0⟩) (fun _ => 0))
        [Call.add_entry 100 5 ⟨0, 0⟩ 0, Call.free_marked, Call.add_entry 200 7 ⟨0, 0⟩ 0] =
      some { iov_idx := 1, io := [⟨200, 7⟩, ⟨100, 5⟩, ⟨0, 0⟩, ⟨0, 0⟩],
             buf_to_free := [0, 0, 0, 0], buf_idx := 0, total_len := 12, size := 4 } := by
  decide

/-- C2: on every buffer state whose release count lies within the release
array, `mk_iov_free_marked` passes to `mk_mem_free` exactly the entries
`buf_to_free[0..buf_idx)`, one call per entry in index order, and leaves
`buf_idx = 0`; a second call right after frees nothing and returns the same state. -/
theorem mk_iov_free_marked_frees_release_list (s : mk_iov)
    (h : s.buf_idx ≤ s.buf_to_free.length) :
    ∃ s', mk_iov_free_marked s = some (s', release_list s) ∧
      s'.buf_idx = 0 ∧ release_list s' = [] ∧
      mk_iov_free_marked s' = some (s', []) := by
  refine ⟨{ s with iov_idx := 0, buf_idx := 0 }, free_marked_of_le s h, rfl, ?_, ?_⟩
  · simp [release_list]
  · rw [free_marked_of_le _ (by show (0 : Int) ≤ _; omega)]
    simp [release_list]

/-- Witness of C2: two registered handles in a three-cell release array. -/
theorem mk_iov_free_marked_frees_release_list_witness :
    ∃ s', mk_iov_free_marked
        { iov_idx := 2, io := [⟨7, 1⟩, ⟨8, 1⟩, ⟨0, 0⟩], buf_to_free := [7, 8, 9],
          buf_idx := 2, total_len := 2, size := 3 } = some (s', [7, 8]) ∧
      s'.buf_idx = 0 ∧ release_list s' = [] ∧
      mk_iov_free_marked s' = some (s', []) :=
  mk_iov_free_marked_frees_release_list
    { iov_idx := 2, io := [⟨7, 1⟩, ⟨8, 1⟩, ⟨0, 0⟩], buf_to_free := [7, 8, 9],
      buf_idx := 2, total_len := 2, size := 3 } (by decide)

theorem release_list_appended (s : mk_iov) (buf : Ptr) (len : Int) (sep : mk_pointer) :
    release_list (appended s buf len sep) = release_list s := by
  unfold release_list
  rw [appended_buf_to_free, appended_buf_idx]

theorem release_list_step (FB : Int) (s s' : mk_iov) (c : Call)
    (hc : c.is_entry) (hs : step FB s c = some s') :
    release_list s' = release_list s ++ owned_ptrs FB [c] := by
  cases c with
  | add_entry buf len sep free =>
    simp only [step, Option.map_eq_some', Prod.exists, exists_and_right, exists_eq_right] at hs
    obtain ⟨r, hs⟩ := hs
    rw [add_entry_eq_some_iff] at hs
    obtain ⟨⟨_, hr⟩, rfl, _⟩ := hs
    rw [release_list_registered FB _ buf free hr,
      release_list_appended]
    by_cases hf : free = FB <;> simp [owned_ptrs, hf]
  | set_entry buf len free idx =>
    simp only [step, Option.map_eq_some', Prod.exists, exists_and_right, exists_eq_right] at hs
    obtain ⟨r, hs⟩ := hs
    rw [set_entry_eq_some_iff] at hs
    obtain ⟨⟨_, hr⟩, rfl, _⟩ := hs
    have key := release_list_registered FB
      { s with io := s.io.set idx.toNat ⟨buf, to_size_t len⟩, total_len := s.total_len + len }
      buf free hr
    refine key.trans ?_
    by_cases hf : free = FB <;> simp [owned_ptrs, hf, release_list]
  | free_marked => exact absurd hc (by simp [Call.is_entry])

theorem owned_ptrs_cons (FB : Int) (c : Call) (cs : List Call) :
    owned_ptrs FB (c :: cs) = owned_ptrs FB [c] ++ owned_ptrs FB cs := by
  cases c <;> simp only [owned_ptrs] <;> (try split_ifs) <;> simp

theorem release_list_run (FB : Int) :
    ∀ (calls : List Call) (s s' : mk_iov), (∀ c ∈ calls, c.is_entry) →
      run FB s calls = some s' → release_list s' = release_list s ++ owned_ptrs FB calls := by
  intro calls
  induction calls with
  | nil => intro s s' _ h; simp only [run, Option.some.injEq] at h; simp [h, owned_ptrs]
  | cons c cs ih =>
    intro s s' hQ h
    simp only [run] at h
    cases hc : step FB s c with
    | none => rw [hc] at h; exact absurd h (by simp)
    | some s1 =>
      rw [hc] at h
      have h1 := release_list_step FB s s1 c (hQ c (List.mem_cons_self c cs)) hc
      have h2 := ih s1 s' (fun d hd => hQ d (List.mem_cons_of_mem c hd)) h
      rw [h2, h1, owned_ptrs_cons FB c cs, List.append_assoc]

/-- Counterexample to C3 as stated.  Overwriting a reserved slot twice with
`mk_iov_set_entry` leaves `total_len = 12` over one active segment of length 7;
and after `mk_iov_free_marked` the cursor is 0 (no active segment) while
`total_len` is still 5. -/
theorem total_len_ne_sum_active :
    (run 1 (mk_iov_create 2 1 (fun _ => ⟨0, 0⟩) (fun _ => 0))
        [Call.set_entry 100 5 0 0, Call.set_entry 200 7 0 0]).map
      (fun s => (s.total_len, active_segments s, len_sum (active_segments s))) =
        some (12, [⟨200, 7⟩], 7) ∧
    (run 1 (mk_iov_create 2 0 (fun _ => ⟨0, 0⟩) (fun _ => 0))
        [Call.add_entry 100 5 ⟨0, 0⟩ 0, Call.free_marked]).map
      (fun s => (s.total_len, active_segments s, len_sum (active_segments s))) =
        some (5, [], 0) := by
  decide

/-- Counterexample to C4 as stated: passing the same pointer twice with the
ownership flag registers it twice, so the release list holds it twice. -/
theorem release_list_duplicate :
    (run 1 (mk_iov_create 2 0 (fun _ => ⟨0, 0⟩) (fun _ => 0))
        [Call.add_entry 7 1 ⟨0, 0⟩ 1, Call.add_entry 7 1 ⟨0, 0⟩ 1]).map release_list =
      some [7, 7] ∧ ¬ ([7, 7] : List Ptr).Nodup := by
  decide

/-- C4 (as amended): for every state reached from `mk_iov_create` by
`mk_iov_add_entry` and `mk_iov_set_entry` calls, the release list is exactly the
sequence of data pointers passed with `free == MK_IOV_FREE_BUF`, in call order;
so it holds every handle at most once exactly when the callers passed no
pointer twice with ownership. -/
theorem release_list_eq_owned_ptrs (MK_IOV_FREE_BUF n offset : Int)
    (junk_io : Nat → iovec) (junk_buf : Nat → Ptr) (calls : List Call) (s : mk_iov)
    (hentry : ∀ c ∈ calls, c.is_entry)
    (hrun : run MK_IOV_FREE_BUF (mk_iov_create n offset junk_io junk_buf) calls = some s) :
    release_list s = owned_ptrs MK_IOV_FREE_BUF calls ∧
      ((release_list s).Nodup ↔ (owned_ptrs MK_IOV_FREE_BUF calls).Nodup) := by
  have h := release_list_run MK_IOV_FREE_BUF calls _ s hentry hrun
  have h0 : release_list (mk_iov_create n offset junk_io junk_buf) = [] := by
    simp [release_list, mk_iov_create]
  rw [h0, List.nil_append] at h
  exact ⟨h, by rw [h]⟩

/-- Witness of C4 (as amended): an owned add, a borrowed set and an owned set. -/
theorem release_list_eq_owned_ptrs_witness :
    run 1 (mk_iov_create 3 1 (fun _ => ⟨0, 0⟩) (fun _ => 0))
        [Call.add_entry 7 1 ⟨900, 2⟩ 1, Call.set_entry 8 4 0 0, Call.set_entry 9 4 1 0] =
      some { iov_idx := 3, io := [⟨9, 4⟩, ⟨7, 1⟩, ⟨900, 2⟩],
             buf_to_free := [7, 9, 0], buf_idx := 2, total_len := 11, size := 3 } ∧
    release_list
      { iov_idx := 3, io := [⟨9, 4⟩, ⟨7, 1⟩, ⟨900, 2⟩],
        buf_to_free := [7, 9, 0], buf_idx := 2, total_len := 11, size := 3 } = [7, 9] :=
  ⟨by decide,
   (release_list_eq_owned_ptrs 1 3 1 (fun _ => ⟨0, 0⟩) (fun _ => 0)
      [Call.add_entry 7 1 ⟨900, 2⟩ 1, Call.set_entry 8 4 0 0, Call.set_entry 9 4 1 0]
      _ (by decide) (by decide)).1⟩

theorem appended_load_next (s : mk_iov) (buf : Ptr) (len : Int) (sep : mk_pointer)
    (hs : sep.len > 0) (h0 : 0 ≤ s.iov_idx) (h1 : s.iov_idx + 1 < s.io.length) :
    load (appended s buf len sep).io (s.iov_idx + 1) = some ⟨sep.data, sep.len⟩ := by
  have hk : s.iov_idx + 1 = (((s.iov_idx + 1).toNat : Nat) : Int) := by omega
  unfold appended
  rw [if_pos hs]
  show load ((s.io.set s.iov_idx.toNat ⟨buf, to_size_t len⟩).set (s.iov_idx + 1).toNat
    ⟨sep.data, sep.len⟩) (s.iov_idx + 1) = _
  rw [hk, Int.toNat_ofNat, load_set_self _ _ _ (by rw [List.length_set]; omega)]

theorem appended_load_below (s : mk_iov) (buf : Ptr) (len : Int) (sep : mk_pointer)
    (i : Int) (hi : i < s.iov_idx) : load (appended s buf len sep).io i = load s.io i := by
  unfold appended
  split_ifs
  · show load ((s.io.set s.iov_idx.toNat ⟨buf, to_size_t len⟩).set (s.iov_idx + 1).toNat
      ⟨sep.data, sep.len⟩) i = _
    rw [load_set_ne _ _ _ _ (by omega), load_set_ne _ _ _ _ (by omega)]
  · show load (s.io.set s.iov_idx.toNat ⟨buf, to_size_t len⟩) i = _
    rw [load_set_ne _ _ _ _ (by omega)]

theorem len_at_congr (s t : mk_iov) (i : Int) (h : load t.io i = load s.io i) :
    len_at t i = len_at s i := by
  unfold len_at
  rw [h]

theorem reserved_sum_congr (s t : mk_iov) (idxs : List Int)
    (h : ∀ i ∈ idxs, len_at t i = len_at s i) : reserved_sum t idxs = reserved_sum s idxs := by
  unfold reserved_sum
  rw [List.map_congr_left h]

theorem reserved_sum_append (s : mk_iov) (xs ys : List Int) :
    reserved_sum s (xs ++ ys) = reserved_sum s xs + reserved_sum s ys := by
  simp [reserved_sum]

theorem drop_take_set_below {α : Type} (l : List α) (i lo hi : Nat) (v : α) (h : i < lo) :
    ((l.set i v).take hi).drop lo = (l.take hi).drop lo := by
  apply List.ext_getElem?
  intro k
  simp only [List.getElem?_drop, List.getElem?_take]
  split_ifs
  · rw [List.getElem?_set_ne (by omega)]
  · rfl

theorem reserved_sum_range (s : mk_iov) :
    ∀ k : Nat, reserved_sum s ((List.range k).map Int.ofNat) = len_sum (s.io.take k) := by
  intro k
  induction k with
  | zero => simp [reserved_sum, len_sum]
  | succ k ih =>
    rw [List.range_succ, List.map_append, reserved_sum_append, ih, List.take_succ,
      len_sum_append]
    congr 1
    simp only [List.map_cons, List.map_nil, reserved_sum, List.sum_cons, List.sum_nil,
      add_zero, len_at, load, List.get?_eq_getElem?, Int.toNat_ofNat]
    by_cases hk : k < s.io.length
    · have h1 : (0 : Int) ≤ Int.ofNat k ∧ Int.ofNat k < (s.io.length : Int) := by
        constructor
        · exact Int.ofNat_nonneg k
        · exact Int.ofNat_lt.2 hk
      rw [if_pos h1]
      simp [len_sum, List.getElem?_eq_getElem hk]
    · have h1 : ¬ ((0 : Int) ≤ Int.ofNat k ∧ Int.ofNat k < (s.io.length : Int)) := by
        intro h
        exact hk (Int.ofNat_lt.1 h.2)
      rw [if_neg h1]
      simp [len_sum, List.getElem?_eq_none (Nat.le_of_not_lt hk)]

theorem len_sum_active (offset : Int) (s : mk_iov) (h : offset ≤ s.iov_idx) :
    len_sum (active_segments s) =
      len_sum (s.io.take offset.toNat) + len_sum (segments_from offset s) := by
  unfold segments_from active_segments
  have h1 := List.take_append_drop offset.toNat (s.io.take s.iov_idx.toNat)
  rw [List.take_take, min_eq_left (by omega)] at h1
  rw [← len_sum_append, h1]

theorem total_len_run (FB offset : Int) :
    ∀ (calls : List Call) (s s' : mk_iov) (done : List Int),
      offset ≤ s.iov_idx → (∀ i ∈ done, i < offset) →
      counts_once offset done calls = true →
      s.total_len = len_sum (segments_from offset s) + reserved_sum s done →
      run FB s calls = some s' →
      offset ≤ s'.iov_idx ∧
        s'.total_len =
          len_sum (segments_from offset s') + reserved_sum s' (done ++ set_indices calls) := by
  intro calls
  induction calls with
  | nil =>
    intro s s' done hoff _ _ htot hrun
    simp only [run, Option.some.injEq] at hrun
    subst hrun
    simpa [set_indices] using ⟨hoff, htot⟩
  | cons c cs ih =>
    intro s s' done hoff hdone hok htot hrun
    simp only [run] at hrun
    cases hc : step FB s c with
    | none => rw [hc] at hrun; exact absurd hrun (by simp)
    | some s1 =>
      rw [hc] at hrun
      cases c with
      | add_entry buf len sep free =>
        simp only [counts_once, Bool.and_eq_true, decide_eq_true_eq] at hok
        obtain ⟨⟨hl0, hl1⟩, hrest⟩ := hok
        simp only [step, Option.map_eq_some', Prod.exists, exists_and_right,
          exists_eq_right] at hc
        obtain ⟨r, hc⟩ := hc
        rw [add_entry_eq_some_iff] at hc
        obtain ⟨⟨⟨hc0, hcap⟩, _⟩, rfl, _⟩ := hc
        have hidx : offset ≤ (registered FB (appended s buf len sep) buf free).iov_idx := by
          rw [registered_iov_idx, appended_iov_idx]; split_ifs <;> omega
        have hres : reserved_sum (registered FB (appended s buf len sep) buf free) done =
            reserved_sum s done := by
          apply reserved_sum_congr
          intro i hi
          apply len_at_congr
          rw [registered_io]
          exact appended_load_below s buf len sep i (lt_of_lt_of_le (hdone i hi) hoff)
        have htot1 : (registered FB (appended s buf len sep) buf free).total_len =
            len_sum (segments_from offset (registered FB (appended s buf len sep) buf free)) +
              reserved_sum (registered FB (appended s buf len sep) buf free) done := by
          rw [hres, registered_total_len, segments_from_registered,
            segments_from_appended offset s buf len sep hoff hc0 hcap, len_sum_append,
            appended_total_len, htot, to_size_t_of_nonneg len hl0 hl1]
          split_ifs <;> simp [len_sum] <;> ring
        exact ih _ s' done hidx hdone hrest htot1 hrun
      | set_entry buf len free idx =>
        simp only [counts_once, Bool.and_eq_true, decide_eq_true_eq] at hok
        obtain ⟨⟨⟨⟨⟨hl0, hl1⟩, hi0⟩, hi1⟩, hnew⟩, hrest⟩ := hok
        simp only [step, Option.map_eq_some', Prod.exists, exists_and_right,
          exists_eq_right] at hc
        obtain ⟨r, hc⟩ := hc
        rw [set_entry_eq_some_iff] at hc
        obtain ⟨⟨⟨_, hin⟩, _⟩, rfl, _⟩ := hc
        have hk : idx = ((idx.toNat : Nat) : Int) := by omega
        have key : ∀ s1 : mk_iov, s1.io = s.io.set idx.toNat ⟨buf, to_size_t len⟩ →
            s1.iov_idx = s.iov_idx → s1.total_len = s.total_len + len →
            offset ≤ s1.iov_idx ∧
              s1.total_len =
                len_sum (segments_from offset s1) + reserved_sum s1 (done ++ [idx]) := by
          intro s1 hio hcur htl
          have hseg : segments_from offset s1 = segments_from offset s := by
            unfold segments_from active_segments
            rw [hio, hcur]
            exact drop_take_set_below s.io idx.toNat offset.toNat s.iov_idx.toNat _ (by omega)
          have hold : reserved_sum s1 done = reserved_sum s done := by
            apply reserved_sum_congr
            intro i hi
            apply len_at_congr
            rw [hio]
            have hne : i ≠ idx := fun e => hnew (e ▸ hi)
            exact load_set_ne s.io idx.toNat _ i (by omega)
          have hat : len_at s1 idx = len := by
            unfold len_at
            rw [hio]
            conv_lhs => rw [hk, Int.toNat_ofNat]
            rw [load_set_self _ _ _ (by omega)]
            exact to_size_t_of_nonneg len hl0 hl1
          refine ⟨by rw [hcur]; exact hoff, ?_⟩
          rw [hseg, reserved_sum_append, hold, htl, htot]
          simp only [reserved_sum, List.map_cons, List.map_nil, List.sum_cons, List.sum_nil,
            add_zero, hat]
          ring
        obtain ⟨hidx, htot1⟩ := key
          (registered FB
            { s with io := s.io.set idx.toNat ⟨buf, to_size_t len⟩,
                     total_len := s.total_len + len } buf free)
          (registered_io FB _ buf free) (registered_iov_idx FB _ buf free)
          (registered_total_len FB _ buf free)
        have hdone1 : ∀ i ∈ done ++ [idx], i < offset := by
          intro i hi
          rcases List.mem_append.1 hi with h | h
          · exact hdone i h
          · rw [List.mem_singleton.1 h]; exact hi1
        have := ih _ s' (done ++ [idx]) hidx hdone1 hrest htot1 hrun
        simpa [set_indices, List.append_assoc] using this
      | free_marked => simp [counts_once] at hok

/-- C3 (as amended): for every state reached from `mk_iov_create(n, offset)` by
`mk_iov_add_entry` and `mk_iov_set_entry` calls with non-negative lengths, each
`mk_iov_set_entry` filling a reserved slot (index below `offset`) not filled
before, `total_len` equals the sum of the lengths of the segments written: those
at indices `offset` up to the cursor and the reserved slots filled.  When every
reserved slot has been filled exactly once (in particular when `offset = 0`)
this is the sum of the lengths of all active segments, indices 0 up to the
cursor. -/
theorem total_len_eq_sum_written (MK_IOV_FREE_BUF n offset : Int)
    (junk_io : Nat → iovec) (junk_buf : Nat → Ptr) (calls : List Call) (s : mk_iov)
    (hok : counts_once offset [] calls = true)
    (hrun : run MK_IOV_FREE_BUF (mk_iov_create n offset junk_io junk_buf) calls = some s) :
    s.total_len =
      len_sum ((active_segments s).drop offset.toNat) + reserved_sum s (set_indices calls) ∧
    ((set_indices calls).Perm ((List.range offset.toNat).map Int.ofNat) →
      s.total_len = len_sum (active_segments s)) := by
  have h0 : (mk_iov_create n offset junk_io junk_buf).total_len =
      len_sum (segments_from offset (mk_iov_create n offset junk_io junk_buf)) +
        reserved_sum (mk_iov_create n offset junk_io junk_buf) [] := by
    have : segments_from offset (mk_iov_create n offset junk_io junk_buf) = [] := by
      unfold segments_from active_segments mk_iov_create
      simp only [List.drop_eq_nil_iff, List.length_take]
      omega
    rw [this]; rfl
  obtain ⟨hoff, htot⟩ := total_len_run MK_IOV_FREE_BUF offset calls _ s []
    (le_refl _) (by simp) hok h0 hrun
  rw [List.nil_append] at htot
  refine ⟨htot, ?_⟩
  intro hperm
  have hsum : reserved_sum s (set_indices calls) = len_sum (s.io.take offset.toNat) := by
    rw [← reserved_sum_range s offset.toNat]
    unfold reserved_sum
    exact (hperm.map (len_at s)).sum_eq
  rw [htot, hsum, len_sum_active offset s hoff, add_comm]

/-- Witness of C3 (as amended): a 4-slot buffer created at offset 1; an add with
a separator, the reserved slot 0 filled once, and an owned add. -/
theorem total_len_eq_sum_written_witness :
    run 1 (mk_iov_create 4 1 (fun _ => ⟨0, 0⟩) (fun _ => 0))
        [Call.add_entry 100 5 ⟨900, 2⟩ 0, Call.set_entry 50 3 0 0,
          Call.add_entry 200 7 ⟨0, 0⟩ 1] =
      some { iov_idx := 4, io := [⟨50, 3⟩, ⟨100, 5⟩, ⟨900, 2⟩, ⟨200, 7⟩],
             buf_to_free := [200, 0, 0, 0], buf_idx := 1, total_len := 17, size := 4 } ∧
    (17 : Int) = len_sum ([⟨50, 3⟩, ⟨100, 5⟩, ⟨900, 2⟩, ⟨200, 7⟩]) :=
  ⟨by decide,
   (total_len_eq_sum_written 1 4 1 (fun _ => ⟨0, 0⟩) (fun _ => 0)
      [Call.add_entry 100 5 ⟨900, 2⟩ 0, Call.set_entry 50 3 0 0,
        Call.add_entry 200 7 ⟨0, 0⟩ 1]
      { iov_idx := 4, io := [⟨50, 3⟩, ⟨100, 5⟩, ⟨900, 2⟩, ⟨200, 7⟩],
        buf_to_free := [200, 0, 0, 0], buf_idx := 1, total_len := 17, size := 4 }
      (by decide) (by decide)).2 (List.Perm.refl _)⟩

/-- C5: on a buffer whose segment array has `size` slots, with cursor `c ≥ 0`,
`c + 2 <= size` and room in the release list when ownership is transferred,
for a length `0 <= len` (below `2^64`, as every `int` is), the call
`mk_iov_add_entry(buf, len, sep, free)` returns; slot `c` becomes `(buf, len)`;
if `sep.len > 0` slot `c+1` becomes `(sep.data, sep.len)`, the cursor becomes
`c+2` and `total_len` grows by `len + sep.len`, otherwise the cursor becomes
`c+1` and `total_len` grows by `len`; the slots below `c` are unchanged and the
returned value is the new cursor. -/
theorem mk_iov_add_entry_effect (MK_IOV_FREE_BUF : Int) (s : mk_iov) (buf : Ptr) (len : Int)
    (sep : mk_pointer) (free : Int)
    (hio : (s.io.length : Int) = s.size) (hc0 : 0 ≤ s.iov_idx)
    (hcap : s.iov_idx + 2 ≤ s.size) (hroom : release_room MK_IOV_FREE_BUF s free)
    (hlen0 : 0 ≤ len) (hlen1 : len < 2 ^ 64) :
    ∃ s' r, mk_iov_add_entry MK_IOV_FREE_BUF s buf len sep free = some (s', r) ∧
      load s'.io s.iov_idx = some ⟨buf, len⟩ ∧
      (sep.len > 0 →
        load s'.io (s.iov_idx + 1) = some ⟨sep.data, sep.len⟩ ∧
        s'.iov_idx = s.iov_idx + 2 ∧ s'.total_len = s.total_len + (len + sep.len)) ∧
      (¬ sep.len > 0 → s'.iov_idx = s.iov_idx + 1 ∧ s'.total_len = s.total_len + len) ∧
      (∀ i, i < s.iov_idx → load s'.io i = load s.io i) ∧
      r = s'.iov_idx := by
  refine ⟨_, _, (add_entry_eq_some_iff MK_IOV_FREE_BUF s buf len sep free _ _).2
    ⟨⟨⟨hc0, ?_⟩, (release_room_appended MK_IOV_FREE_BUF s buf len sep free).2 hroom⟩, rfl, rfl⟩,
    ?_, ?_, ?_, ?_, rfl⟩
  · split_ifs <;> omega
  · rw [registered_io, appended_load_cursor s buf len sep hc0 (by omega),
      to_size_t_of_nonneg len hlen0 hlen1]
  · intro hs
    refine ⟨?_, ?_, ?_⟩
    · rw [registered_io]
      exact appended_load_next s buf len sep hs hc0 (by omega)
    · rw [registered_iov_idx, appended_iov_idx, if_pos hs]
    · rw [registered_total_len, appended_total_len, if_pos hs, add_assoc]
  · intro hs
    refine ⟨?_, ?_⟩
    · rw [registered_iov_idx, appended_iov_idx, if_neg hs]
    · rw [registered_total_len, appended_total_len, if_neg hs, add_zero]
  · intro i hi
    rw [registered_io]
    exact appended_load_below s buf len sep i hi

/-- Witness of C5: an owned add with a separator at cursor 1 of a 4-slot buffer. -/
theorem mk_iov_add_entry_effect_witness :
    ∃ s' r, mk_iov_add_entry 1
        { iov_idx := 1, io := [⟨50, 3⟩, ⟨0, 0⟩, ⟨0, 0⟩, ⟨0, 0⟩], buf_to_free := [0, 0, 0, 0],
          buf_idx := 0, total_len := 3, size := 4 } 100 5 ⟨900, 2⟩ 1 = some (s', r) ∧
      load s'.io 1 = some ⟨100, 5⟩ ∧
      ((2 : Int) > 0 →
        load s'.io (1 + 1) = some ⟨900, 2⟩ ∧ s'.iov_idx = 1 + 2 ∧ s'.total_len = 3 + (5 + 2)) ∧
      (¬ (2 : Int) > 0 → s'.iov_idx = 1 + 1 ∧ s'.total_len = 3 + 5) ∧
      (∀ i, i < (1 : Int) → load s'.io i = load [⟨50, 3⟩, ⟨0, 0⟩, ⟨0, 0⟩, ⟨0, 0⟩] i) ∧
      r = s'.iov_idx :=
  mk_iov_add_entry_effect 1
    { iov_idx := 1, io := [⟨50, 3⟩, ⟨0, 0⟩, ⟨0, 0⟩, ⟨0, 0⟩], buf_to_free := [0, 0, 0, 0],
      buf_idx := 0, total_len := 3, size := 4 } 100 5 ⟨900, 2⟩ 1
    (by decide) (by decide) (by decide) (by decide) (by decide) (by decide)

/-- C6: whenever a call of `mk_iov_add_entry` or of `mk_iov_set_entry` is within
the bounds of the two arrays, it returns, and the release list afterwards is the
one before with `buf` appended at its end when `free == MK_IOV_FREE_BUF`, and the
one before otherwise; the separator of `mk_iov_add_entry` is never appended. -/
theorem release_list_after_entry (MK_IOV_FREE_BUF : Int) (s : mk_iov) (buf : Ptr) (len : Int)
    (sep : mk_pointer) (free idx : Int) (hroom : release_room MK_IOV_FREE_BUF s free) :
    (0 ≤ s.iov_idx ∧ s.iov_idx + (if sep.len > 0 then 2 else 1) ≤ s.io.length →
      ∃ s' r, mk_iov_add_entry MK_IOV_FREE_BUF s buf len sep free = some (s', r) ∧
        release_list s' = release_list s ++ (if free = MK_IOV_FREE_BUF then [buf] else [])) ∧
    (0 ≤ idx ∧ idx < s.io.length →
      ∃ s' r, mk_iov_set_entry MK_IOV_FREE_BUF s buf len free idx = some (s', r) ∧
        release_list s' = release_list s ++ (if free = MK_IOV_FREE_BUF then [buf] else [])) := by
  constructor
  · intro hadd
    have hr := (release_room_appended MK_IOV_FREE_BUF s buf len sep free).2 hroom
    refine ⟨_, _, (add_entry_eq_some_iff MK_IOV_FREE_BUF s buf len sep free _ _).2
      ⟨⟨hadd, hr⟩, rfl, rfl⟩, ?_⟩
    rw [release_list_registered MK_IOV_FREE_BUF _ buf free hr, release_list_appended]
  · intro hset
    refine ⟨_, _, (set_entry_eq_some_iff MK_IOV_FREE_BUF s buf len free idx _ _).2
      ⟨⟨hset, hroom⟩, rfl, rfl⟩, ?_⟩
    exact release_list_registered MK_IOV_FREE_BUF
      { s with io := s.io.set idx.toNat ⟨buf, to_size_t len⟩, total_len := s.total_len + len }
      buf free hroom

/-- Witness of C6: an owned add with a separator, and an owned set of slot 0,
on a 4-slot buffer holding one registered handle. -/
theorem release_list_after_entry_witness :
    (∃ s' r, mk_iov_add_entry 1
        { iov_idx := 1, io := [⟨50, 3⟩, ⟨0, 0⟩, ⟨0, 0⟩, ⟨0, 0⟩], buf_to_free := [50, 0, 0, 0],
          buf_idx := 1, total_len := 3, size := 4 } 100 5 ⟨900, 2⟩ 1 = some (s', r) ∧
      release_list s' = [50, 100]) ∧
    (∃ s' r, mk_iov_set_entry 1
        { iov_idx := 1, io := [⟨50, 3⟩, ⟨0, 0⟩, ⟨0, 0⟩, ⟨0, 0⟩], buf_to_free := [50, 0, 0, 0],
          buf_idx := 1, total_len := 3, size := 4 } 100 5 1 0 = some (s', r) ∧
      release_list s' = [50, 100]) :=
  ⟨(release_list_after_entry 1
      { iov_idx := 1, io := [⟨50, 3⟩, ⟨0, 0⟩, ⟨0, 0⟩, ⟨0, 0⟩], buf_to_free := [50, 0, 0, 0],
        buf_idx := 1, total_len := 3, size := 4 } 100 5 ⟨900, 2⟩ 1 0 (by decide)).1 (by decide),
   (release_list_after_entry 1
      { iov_idx := 1, io := [⟨50, 3⟩, ⟨0, 0⟩, ⟨0, 0⟩, ⟨0, 0⟩], buf_to_free := [50, 0, 0, 0],
        buf_idx := 1, total_len := 3, size := 4 } 100 5 ⟨900, 2⟩ 1 0 (by decide)).2 (by decide)⟩

/-- C7: on a buffer whose segment array has `size` slots, for an index
`0 <= idx < size` (and room in the release list when ownership is transferred)
and a length `0 <= len` (below `2^64`, as every `int` is),
`mk_iov_set_entry(buf, len, free, idx)` returns 0, slot `idx` becomes
`(buf, len)`, and the cursor and every other slot are unchanged. -/
theorem mk_iov_set_entry_effect (MK_IOV_FREE_BUF : Int) (s : mk_iov) (buf : Ptr) (len : Int)
    (free idx : Int) (hio : (s.io.length : Int) = s.size) (h0 : 0 ≤ idx) (h1 : idx < s.size)
    (hroom : release_room MK_IOV_FREE_BUF s free) (hlen0 : 0 ≤ len) (hlen1 : len < 2 ^ 64) :
    ∃ s', mk_iov_set_entry MK_IOV_FREE_BUF s buf len free idx = some (s', 0) ∧
      load s'.io idx = some ⟨buf, len⟩ ∧ s'.iov_idx = s.iov_idx ∧
      ∀ j, j ≠ idx → load s'.io j = load s.io j := by
  have hk : idx = ((idx.toNat : Nat) : Int) := by omega
  refine ⟨_, (set_entry_eq_some_iff MK_IOV_FREE_BUF s buf len free idx _ _).2
    ⟨⟨⟨h0, by omega⟩, hroom⟩, rfl, rfl⟩, ?_, ?_, ?_⟩
  · rw [registered_io]
    show load (s.io.set idx.toNat ⟨buf, to_size_t len⟩) idx = _
    conv_lhs => rw [hk, Int.toNat_ofNat]
    rw [load_set_self _ _ _ (by omega), to_size_t_of_nonneg len hlen0 hlen1]
  · rw [registered_iov_idx]
  · intro j hj
    rw [registered_io]
    exact load_set_ne _ _ _ _ (by omega)

/-- Witness of C7: a borrowed set of the reserved slot 0 of a 3-slot buffer. -/
theorem mk_iov_set_entry_effect_witness :
    ∃ s', mk_iov_set_entry 1
        { iov_idx := 2, io := [⟨0, 0⟩, ⟨50, 3⟩, ⟨0, 0⟩], buf_to_free := [0, 0, 0],
          buf_idx := 0, total_len := 3, size := 3 } 100 5 0 0 = some (s', 0) ∧
      load s'.io 0 = some ⟨100, 5⟩ ∧ s'.iov_idx = 2 ∧
      ∀ j, j ≠ (0 : Int) → load s'.io j = load [⟨0, 0⟩, ⟨50, 3⟩, ⟨0, 0⟩] j :=
  mk_iov_set_entry_effect 1
    { iov_idx := 2, io := [⟨0, 0⟩, ⟨50, 3⟩, ⟨0, 0⟩], buf_to_free := [0, 0, 0],
      buf_idx := 0, total_len := 3, size := 3 } 100 5 0 0
    (by decide) (by decide) (by decide) (by decide) (by decide) (by decide)

/-! ## Lemmas and theorems about `cgi.c` -/

theorem to_ssize_of_lt (count : Nat) (h : count < 2 ^ 63) : to_ssize count = count := by
  unfold to_ssize
  have h2 : count % 2 ^ 64 = count := Nat.mod_eq_of_lt (by omega)
  rw [h2, if_pos h]

theorem swrite_loop_neg (write : Nat → List Char → Int) (data : List Char)
    (fuel i : Nat) (off pos ret : Int) (h : ret < 0) :
    swrite_loop write data fuel i off pos ret = some (ret, []) := by
  have hc : ¬ (pos > 0 ∧ ret ≥ 0) := by omega
  cases fuel <;> simp only [swrite_loop, hc, if_false]

theorem swrite_loop_spec (write : Nat → List Char → Int) (data : List Char)
    (hw : ∀ i offered, offered ≠ [] →
      write i offered < 0 ∨ (1 ≤ write i offered ∧ write i offered ≤ offered.length)) :
    ∀ (fuel i k : Nat), k ≤ data.length → data.length - k ≤ fuel → ∀ ret : Int, 0 ≤ ret →
      ∃ last calls,
        swrite_loop write data fuel i (k : Int) ((data.length - k : Nat) : Int) ret =
          some (last, calls) ∧
        offers_suffixes (data.drop k) calls ∧
        (0 ≤ last ↔ ∀ c ∈ calls, 0 ≤ c.ret) ∧
        (0 ≤ last → (calls.map WriteCall.accepted).flatten = data.drop k) ∧
        calls.length ≤ data.length - k := by
  intro fuel
  induction fuel with
  | zero =>
    intro i k hk hfuel ret hret
    have hk2 : k = data.length := by omega
    refine ⟨ret, [], ?_, trivial, ?_, ?_, by simp⟩
    · have hc : ¬ (((data.length - k : Nat) : Int) > 0 ∧ ret ≥ 0) := by omega
      simp only [swrite_loop, hc, if_false]
    · simp [hret]
    · intro _; simp [hk2]
  | succ fuel ih =>
    intro i k hk hfuel ret hret
    by_cases hpos : k < data.length
    · have hc : (((data.length - k : Nat) : Int) > 0 ∧ ret ≥ 0) := by omega
      have hoff : (data.drop (k : Int).toNat).take ((data.length - k : Nat) : Int).toNat
          = data.drop k := by
        simp only [Int.toNat_ofNat]
        rw [List.take_of_length_le (by simp)]
      have hne : data.drop k ≠ [] := by
        intro h0
        have := congrArg List.length h0
        simp at this; omega
      simp only [swrite_loop, hc, if_true, hoff]
      rcases hw i (data.drop k) hne with hneg | ⟨h1, h2⟩
      · rw [swrite_loop_neg write data fuel (i + 1) _ _ _ hneg]
        refine ⟨_, _, rfl, ⟨rfl, trivial⟩, ?_, ?_, ?_⟩
        · simp only [List.mem_singleton, forall_eq]
        · intro h; omega
        · simp; omega
      · simp only [List.length_drop] at h2
        have e1 : (k : Int) + write i (data.drop k) =
            ((k + (write i (data.drop k)).toNat : Nat) : Int) := by omega
        have e2 : ((data.length - k : Nat) : Int) - write i (data.drop k) =
            ((data.length - (k + (write i (data.drop k)).toNat) : Nat) : Int) := by omega
        obtain ⟨last, calls, hl, ho, hiff, hfl, hlen⟩ :=
          ih (i + 1) (k + (write i (data.drop k)).toNat) (by omega) (by omega)
            (write i (data.drop k)) (by omega)
        rw [e1, e2, hl]
        refine ⟨_, _, rfl, ⟨rfl, ?_⟩, ?_, ?_, ?_⟩
        · show offers_suffixes ((data.drop k).drop (write i (data.drop k)).toNat) calls
          rw [List.drop_drop]
          exact ho
        · rw [hiff]
          simp only [List.mem_cons, forall_eq_or_imp]
          constructor
          · intro h; exact ⟨by show (0 : Int) ≤ write i (data.drop k); omega, h⟩
          · intro h; exact h.2
        · intro h
          simp only [List.map_cons, List.flatten_cons, hfl h, WriteCall.accepted]
          have := List.take_append_drop (write i (data.drop k)).toNat (data.drop k)
          rw [List.drop_drop] at this
          exact this
        · simp only [List.length_cons]; omega
    · have hk2 : k = data.length := by omega
      have hc : ¬ (((data.length - k : Nat) : Int) > 0 ∧ ret ≥ 0) := by omega
      refine ⟨ret, [], ?_, trivial, ?_, ?_, by simp⟩
      · simp only [swrite_loop, hc, if_false]
      · simp [hret]
      · intro _; simp [hk2]

theorem swrite_loop_made_by (write : Nat → List Char → Int) (data : List Char) :
    ∀ (fuel i : Nat) (off pos ret last : Int) (calls : List WriteCall),
      swrite_loop write data fuel i off pos ret = some (last, calls) →
      made_by write i calls := by
  intro fuel
  induction fuel with
  | zero =>
    intro i off pos ret last calls h
    simp only [swrite_loop] at h
    split_ifs at h
    simp only [Option.some.injEq, Prod.mk.injEq] at h
    rw [← h.2]
    trivial
  | succ fuel ih =>
    intro i off pos ret last calls h
    simp only [swrite_loop] at h
    split_ifs at h
    · cases hrec : swrite_loop write data fuel (i + 1)
          (off + write i ((data.drop off.toNat).take pos.toNat))
          (pos - write i ((data.drop off.toNat).take pos.toNat))
          (write i ((data.drop off.toNat).take pos.toNat)) with
      | none => rw [hrec] at h; exact absurd h (by simp)
      | some p =>
        obtain ⟨l, cs⟩ := p
        rw [hrec] at h
        simp only [Option.some.injEq, Prod.mk.injEq] at h
        rw [← h.2]
        exact ⟨rfl, ih _ _ _ _ _ _ hrec⟩
    · simp only [Option.some.injEq, Prod.mk.injEq] at h
      rw [← h.2]
      trivial

/-- C8: for a buffer of `count` bytes and a `write` that on every call either
returns a negative value or accepts between 1 and all of the bytes offered,
`swrite` returns (with `count` iterations allowed, or more); the calls recorded
are the calls made to `write`, each with the value `write` returned; every call
offers exactly the suffix not yet accepted; the result is 1 exactly when no call
returned a negative value, and then the accepted pieces, in call order, make up
the whole buffer; the result is 0 or 1.  In particular, when `write` never
returns a negative value the result is 1 and the whole buffer is delivered. -/
theorem swrite_delivers_all (write : Nat → List Char → Int) (buf : List Char) (fuel : Nat)
    (hsize : buf.length < 2 ^ 63) (hfuel : buf.length ≤ fuel)
    (hw : ∀ i offered, offered ≠ [] →
      write i offered < 0 ∨ (1 ≤ write i offered ∧ write i offered ≤ offered.length)) :
    ∃ res calls, swrite write buf buf.length fuel = some (res, calls) ∧
      made_by write 0 calls ∧
      offers_suffixes buf calls ∧
      (res = 1 ↔ ∀ c ∈ calls, 0 ≤ c.ret) ∧
      (res = 1 → (calls.map WriteCall.accepted).flatten = buf) ∧
      (res = 0 ∨ res = 1) ∧
      ((∀ i offered, 0 ≤ write i offered) →
        res = 1 ∧ (calls.map WriteCall.accepted).flatten = buf) := by
  obtain ⟨last, calls, hl, ho, hiff, hfl, _⟩ :=
    swrite_loop_spec write buf hw fuel 0 0 (Nat.zero_le _) (by omega) 0 (le_refl _)
  simp only [Nat.sub_zero, Nat.cast_zero, List.drop_zero] at hl ho hfl
  have hmade := swrite_loop_made_by write buf fuel 0 0 _ 0 last calls hl
  have hall : ∀ (cs : List WriteCall) (i : Nat), made_by write i cs →
      (∀ i offered, 0 ≤ write i offered) → ∀ c ∈ cs, 0 ≤ c.ret := by
    intro cs
    induction cs with
    | nil => intro _ _ _ c hc; simp at hc
    | cons d ds ih =>
      intro i hm hpos c hc
      rcases List.mem_cons.1 hc with h | h
      · rw [h, hm.1]; exact hpos _ _
      · exact ih (i + 1) hm.2 hpos c h
  refine ⟨if last < 0 then 0 else 1, calls, ?_, hmade, ho, ?_, ?_, ?_, ?_⟩
  · simp only [swrite, to_ssize_of_lt buf.length hsize, hl]
  · rw [← hiff]; split_ifs <;> omega
  · intro h; apply hfl; split_ifs at h <;> omega
  · split_ifs <;> simp
  · intro hpos
    have h0 : 0 ≤ last := hiff.2 (hall calls 0 hmade hpos)
    exact ⟨by rw [if_neg (by omega)], hfl h0⟩

theorem relay_loop_done :
    ∀ reads : List (List Char), (∀ c ∈ reads, c ≠ []) → relay_loop reads true = reads
  | [], _ => rfl
  | buf :: reads, h => by
    have hb : buf ≠ [] := h buf (List.mem_cons_self _ _)
    have hlen : 0 < buf.length := List.length_pos.2 hb
    have hc : ((buf.length : Int) > 0) := by omega
    have ih := relay_loop_done reads (fun c hc => h c (List.mem_cons_of_mem _ hc))
    simp only [relay_loop, hc, if_true, not_true_eq_false, if_false, ih, Int.toNat_ofNat,
      List.take_length]

/-- C9: when the first chunk read from the child begins with the 8 bytes
`Status: ` (all chunks being non-empty), the bytes handed to the client are
`HTTP/1.0 ` followed by the concatenation of all chunks without its first 8 bytes. -/
theorem relay_status_rewrite (first : List Char) (rest : List (List Char))
    (hst : first.take 8 = STATUS_LITERAL) (hne : ∀ c ∈ rest, c ≠ []) :
    relay_sent (first :: rest) = HTTP10 ++ ((first :: rest).flatten).drop 8 := by
  have hlen : 8 ≤ first.length := by
    have := congrArg List.length hst
    simp only [List.length_take, STATUS_LITERAL] at this
    have h8 : "Status: ".toList.length = 8 := by decide
    omega
  have hc : ((first.length : Int) > 0) := by omega
  have hc8 : ((first.length : Int) ≥ 8) := by omega
  have hk : ((first.length : Int) - 8).toNat = first.length - 8 := by omega
  simp only [relay_sent, relay_loop, hc, hc8, hst, if_true, Bool.false_eq_true,
    not_false_eq_true, and_self, relay_loop_done rest hne, List.flatten_cons, hk]
  rw [List.take_of_length_le (by simp), List.drop_append_of_le_length hlen]

/-- Witness of C9: the child writes `Status: 404 Not Found\r\n\r\nbody` in two chunks. -/
theorem relay_status_rewrite_witness :
    relay_sent ["Status: 404 Not Found\r\n".toList, "\r\nbody".toList] =
      HTTP10 ++ (["Status: 404 Not Found\r\n".toList, "\r\nbody".toList].flatten).drop 8 ∧
    HTTP10 ++ (["Status: 404 Not Found\r\n".toList, "\r\nbody".toList].flatten).drop 8 =
      "HTTP/1.0 404 Not Found\r\n\r\nbody".toList :=
  ⟨relay_status_rewrite "Status: 404 Not Found\r\n".toList ["\r\nbody".toList]
    (by decide) (by decide), by decide⟩

/-- Counterexample to C10 as stated: the output `Hello`, read as the chunks
`He` and `llo`, is relayed as `Hello` with no status line; read as `He` and
`llo, world` the status line is inserted after `He`. -/
theorem relay_short_first_chunk :
    ["He".toList, "llo".toList].flatten = "Hello".toList ∧
    (∀ c ∈ ["He".toList, "llo".toList], c ≠ [] ∧ c.length ≤ PATHLEN) ∧
    "Hello".toList ≠ [] ∧
    "Hello".toList.take 8 ≠ STATUS_LITERAL ∧ "Hello".toList.take 4 ≠ HTTP_LITERAL ∧
    relay_sent ["He".toList, "llo".toList] = "Hello".toList ∧
    relay_sent ["He".toList, "llo".toList] ≠ HTTP10_200 ++ "Hello".toList ∧
    relay_sent ["He".toList, "llo, world".toList] =
      "HeHTTP/1.0 200 OK\r\nllo, world".toList := by
  decide

/-- C10 (as amended): when the child's output begins with neither `Status: ` nor
`HTTP`, is read in non-empty chunks and the first chunk has at least 4 bytes,
the bytes handed to the client are `HTTP/1.0 200 OK\r\n` followed by the output
unmodified. -/
theorem relay_default_status (first : List Char) (rest : List (List Char))
    (h4 : 4 ≤ first.length) (hne : ∀ c ∈ rest, c ≠ [])
    (hS : ((first :: rest).flatten).take 8 ≠ STATUS_LITERAL)
    (hH : ((first :: rest).flatten).take 4 ≠ HTTP_LITERAL) :
    relay_sent (first :: rest) = HTTP10_200 ++ (first :: rest).flatten := by
  have hc : ((first.length : Int) > 0) := by omega
  have hc4 : ((first.length : Int) ≥ 4) := by omega
  have hH2 : first.take 4 ≠ HTTP_LITERAL := by
    rw [List.flatten_cons, List.take_append_of_le_length h4] at hH
    exact hH
  have hS2 : ¬ ((first.length : Int) ≥ 8 ∧ first.take 8 = STATUS_LITERAL) := by
    rintro ⟨h8, hst⟩
    rw [List.flatten_cons, List.take_append_of_le_length (by omega)] at hS
    exact hS hst
  simp only [relay_sent, relay_loop, hc, hc4, hS2, hH2, if_true, if_false, Bool.false_eq_true,
    not_false_eq_true, ne_eq, relay_loop_done rest hne, List.flatten_cons, Int.toNat_ofNat,
    List.take_length]

/-- Witness of C10 (as amended): the child writes `Hello`, read as `Hell` and `o`. -/
theorem relay_default_status_witness :
    relay_sent ["Hell".toList, "o".toList] =
      HTTP10_200 ++ ["Hell".toList, "o".toList].flatten ∧
    HTTP10_200 ++ ["Hell".toList, "o".toList].flatten = "HTTP/1.0 200 OK\r\nHello".toList :=
  ⟨relay_default_status "Hell".toList ["o".toList] (by decide) (by decide) (by decide)
    (by decide), by decide⟩

/-- Witness of C8: a destination that accepts at most two bytes per call. -/
theorem swrite_delivers_all_witness :
    swrite write_two "abcde".toList "abcde".toList.length 5 =
      some (1, [⟨"abcde".toList, 2⟩, ⟨"cde".toList, 2⟩, ⟨"e".toList, 1⟩]) ∧
    ∃ res calls, swrite write_two "abcde".toList "abcde".toList.length 5 = some (res, calls) ∧
      made_by write_two 0 calls ∧
      offers_suffixes "abcde".toList calls ∧
      (res = 1 ↔ ∀ c ∈ calls, 0 ≤ c.ret) ∧
      (res = 1 → (calls.map WriteCall.accepted).flatten = "abcde".toList) ∧
      (res = 0 ∨ res = 1) ∧
      ((∀ i offered, 0 ≤ write_two i offered) →
        res = 1 ∧ (calls.map WriteCall.accepted).flatten = "abcde".toList) :=
  ⟨by decide,
   swrite_delivers_all write_two "abcde".toList 5 (by decide) (by decide)
    (by
      intro i offered hne
      right
      have : 0 < offered.length := List.length_pos.2 hne
      unfold write_two
      omega)⟩

/-! ## The relay loop chunk by chunk -/

theorem relay_loop_cons (buf : List Char) (reads : List (List Char)) (headers_done : Bool)
    (hne : buf ≠ []) :
    relay_loop (buf :: reads) headers_done =
      (relay_step buf headers_done).1 ++ relay_loop reads (relay_step buf headers_done).2 := by
  have hlen : 0 < buf.length := List.length_pos.2 hne
  have hc : ((buf.length : Int) > 0) := by omega
  simp only [relay_loop, relay_step, hc, if_true]
  split_ifs <;> simp

theorem relay_step_done (buf : List Char) : relay_step buf true = ([buf], true) := by
  simp [relay_step]

theorem relay_loop_append (pre : List (List Char)) :
    ∀ (post : List (List Char)) (headers_done : Bool), (∀ c ∈ pre, c ≠ []) →
      relay_loop (pre ++ post) headers_done =
        relay_loop pre headers_done ++ relay_loop post (headers_done_after pre headers_done) := by
  induction pre with
  | nil => intro post hd _; simp [relay_loop, headers_done_after]
  | cons c cs ih =>
    intro post hd h
    have hc : c ≠ [] := h c (List.mem_cons_self _ _)
    have hcs : ∀ d ∈ cs, d ≠ [] := fun d hd => h d (List.mem_cons_of_mem _ hd)
    rw [List.cons_append, relay_loop_cons c _ hd hc, relay_loop_cons c _ hd hc, ih post _ hcs,
      headers_done_after, List.append_assoc]

theorem relay_step_len4 (buf : List Char) (headers_done : Bool) (h4 : 4 ≤ buf.length) :
    (relay_step buf headers_done).2 = true := by
  have hc : ((buf.length : Int) ≥ 4) := by omega
  cases headers_done
  · simp only [relay_step, hc, if_true, Bool.false_eq_true, not_false_eq_true]
    split_ifs <;> rfl
  · rw [relay_step_done]

theorem headers_done_after_true :
    ∀ pre : List (List Char), headers_done_after pre true = true
  | [] => rfl
  | c :: cs => by rw [headers_done_after, relay_step_done]; exact headers_done_after_true cs

theorem headers_done_after_len4 (c : List Char) (h4 : 4 ≤ c.length) :
    ∀ (pre : List (List Char)) (headers_done : Bool),
      headers_done_after (pre ++ [c]) headers_done = true
  | [], hd => by
    simp only [List.nil_append, headers_done_after]
    exact relay_step_len4 c hd h4
  | d :: ds, hd => by
    rw [List.cons_append, headers_done_after]
    exact headers_done_after_len4 c h4 ds _

theorem status_not_http (buf : List Char) (h : buf.take 8 = STATUS_LITERAL) :
    buf.take 4 ≠ HTTP_LITERAL := by
  intro h4
  have h1 : (buf.take 8).take 4 = buf.take 4 := by rw [List.take_take]; rfl
  rw [h, h4] at h1
  exact absurd h1 (by decide)

/-- C11: when the first chunk read from the child begins with the 4 bytes
`HTTP` (all chunks being non-empty), the bytes handed to the client are exactly
the concatenation of all chunks. -/
theorem relay_http_verbatim (first : List Char) (rest : List (List Char))
    (hH : first.take 4 = HTTP_LITERAL) (hne : ∀ c ∈ rest, c ≠ []) :
    relay_sent (first :: rest) = (first :: rest).flatten := by
  have hlen : 4 ≤ first.length := by
    have := congrArg List.length hH
    simp only [List.length_take, HTTP_LITERAL] at this
    have h4 : "HTTP".toList.length = 4 := by decide
    omega
  have hc : ((first.length : Int) > 0) := by omega
  have hc4 : ((first.length : Int) ≥ 4) := by omega
  have hS : ¬ ((first.length : Int) ≥ 8 ∧ first.take 8 = STATUS_LITERAL) := by
    rintro ⟨_, hst⟩
    exact status_not_http first hst hH
  simp only [relay_sent, relay_loop, hc, hc4, hS, hH, if_true, if_false, Bool.false_eq_true,
    not_false_eq_true, ne_eq, not_true_eq_false, relay_loop_done rest hne, List.flatten_cons,
    Int.toNat_ofNat, List.take_length]

/-- Witness of C11: the child writes `HTTP/1.1 201 Created\r\n\r\nok` in two chunks. -/
theorem relay_http_verbatim_witness :
    relay_sent ["HTTP/1.1 201 Created\r\n".toList, "\r\nok".toList] =
      ["HTTP/1.1 201 Created\r\n".toList, "\r\nok".toList].flatten ∧
    ["HTTP/1.1 201 Created\r\n".toList, "\r\nok".toList].flatten =
      "HTTP/1.1 201 Created\r\n\r\nok".toList :=
  ⟨relay_http_verbatim "HTTP/1.1 201 Created\r\n".toList ["\r\nok".toList]
    (by decide) (by decide), by decide⟩

/-- Counterexample to C16 as stated: after a first chunk of 2 bytes the second
chunk is still inspected; its `Status: ` is replaced, or the status line is
inserted before it. -/
theorem relay_second_chunk_inspected :
    relay_loop ["ab".toList, "Status: 200 OK\r\n".toList] false =
      ["ab".toList, "HTTP/1.0 ".toList, "200 OK\r\n".toList] ∧
    relay_loop ["ab".toList, "Status: 200 OK\r\n".toList] false ≠
      relay_loop ["ab".toList] false ++ ["Status: 200 OK\r\n".toList] ∧
    relay_loop ["He".toList, "llo, world".toList] false =
      ["He".toList, "HTTP/1.0 200 OK\r\n".toList, "llo, world".toList] ∧
    relay_loop ["He".toList, "llo, world".toList] false ≠
      relay_loop ["He".toList] false ++ ["llo, world".toList] := by
  decide

/-- C16 (as amended): the relay loop inspects the chunks up to and including the
first one that has at least 4 bytes; every chunk after a chunk of at least 4
bytes is handed to the client verbatim, nothing inserted before it and nothing
removed from it. -/
theorem relay_verbatim_after_sniff (pre : List (List Char)) (c : List Char)
    (post : List (List Char)) (hpre : ∀ d ∈ pre, d ≠ []) (h4 : 4 ≤ c.length)
    (hpost : ∀ d ∈ post, d ≠ []) :
    relay_loop (pre ++ c :: post) false = relay_loop (pre ++ [c]) false ++ post := by
  have hc : c ≠ [] := by
    intro h0; rw [h0] at h4; simp at h4
  have hall : ∀ d ∈ pre ++ [c], d ≠ [] := by
    intro d hd
    rcases List.mem_append.1 hd with h | h
    · exact hpre d h
    · rw [List.mem_singleton.1 h]; exact hc
  have hsplit : pre ++ c :: post = (pre ++ [c]) ++ post := by simp
  rw [hsplit, relay_loop_append (pre ++ [c]) post false hall,
    headers_done_after_len4 c h4 pre false, relay_loop_done post hpost]

/-- Witness of C16 (as amended): a short chunk, a chunk of 5 bytes, two more chunks. -/
theorem relay_verbatim_after_sniff_witness :
    relay_loop (["He".toList] ++ "llo, ".toList :: ["wor".toList, "ld".toList]) false =
      relay_loop (["He".toList] ++ ["llo, ".toList]) false ++ ["wor".toList, "ld".toList] :=
  relay_verbatim_after_sniff ["He".toList] "llo, ".toList ["wor".toList, "ld".toList]
    (by decide) (by decide) (by decide)

theorem relay_one_modification (chunks : List (List Char)) (hne : ∀ c ∈ chunks, c ≠ []) :
    (relay_loop chunks false).flatten = chunks.flatten ∨
    (∃ pre c post, chunks = pre ++ c :: post ∧
      (relay_loop chunks false).flatten = pre.flatten ++ HTTP10_200 ++ (c :: post).flatten) ∨
    (∃ pre c post, chunks = pre ++ c :: post ∧ c.take 8 = STATUS_LITERAL ∧
      (relay_loop chunks false).flatten = pre.flatten ++ HTTP10 ++ c.drop 8 ++ post.flatten) := by
  induction chunks with
  | nil => left; rfl
  | cons c cs ih =>
    have hc : c ≠ [] := hne c (List.mem_cons_self _ _)
    have hcs : ∀ d ∈ cs, d ≠ [] := fun d hd => hne d (List.mem_cons_of_mem _ hd)
    have hlen : 0 < c.length := List.length_pos.2 hc
    rw [relay_loop_cons c cs false hc]
    by_cases hS : ((c.length : Int) ≥ 8 ∧ c.take 8 = STATUS_LITERAL)
    · right; right
      refine ⟨[], c, cs, rfl, hS.2, ?_⟩
      have hk : ((c.length : Int) - 8).toNat = c.length - 8 := by omega
      simp only [relay_step, hS, Bool.false_eq_true, not_false_eq_true, if_true, and_self,
        relay_loop_done cs hcs, hk]
      rw [List.take_of_length_le (by simp)]
      simp
    · by_cases h4 : ((c.length : Int) ≥ 4)
      · by_cases hH : c.take 4 = HTTP_LITERAL
        · left
          simp only [relay_step, hS, h4, hH, Bool.false_eq_true, not_false_eq_true, if_true,
            if_false, ne_eq, not_true_eq_false, relay_loop_done cs hcs, Int.toNat_ofNat,
            List.take_length]
          simp
        · right; left
          refine ⟨[], c, cs, rfl, ?_⟩
          simp only [relay_step, hS, h4, hH, Bool.false_eq_true, not_false_eq_true, if_true,
            if_false, ne_eq, relay_loop_done cs hcs, Int.toNat_ofNat, List.take_length]
          simp
      · have hstep : relay_step c false = ([c], false) := by
          simp only [relay_step, hS, h4, Bool.false_eq_true, not_false_eq_true, if_true,
            if_false, Int.toNat_ofNat, List.take_length]
        rw [hstep]
        rcases ih hcs with h | ⟨pre, d, post, he, h⟩ | ⟨pre, d, post, he, hd, h⟩
        · left
          simp only [List.singleton_append, List.flatten_cons, h]
        · right; left
          refine ⟨c :: pre, d, post, by rw [he]; rfl, ?_⟩
          simp only [List.singleton_append, List.flatten_cons, h, List.append_assoc]
        · right; right
          refine ⟨c :: pre, d, post, by rw [he]; rfl, hd, ?_⟩
          simp only [List.singleton_append, List.flatten_cons, h, List.append_assoc]

/-- C19: for every sequence of non-empty chunks, the bytes handed to the client
are the concatenation of the chunks with at most one modification: nothing, or
`HTTP/1.0 200 OK\r\n` inserted once immediately before some chunk, or the 8 bytes
`Status: ` at the start of one chunk replaced by `HTTP/1.0 `; all chunks before
and after the modified place are unchanged and in order. -/
theorem relay_at_most_one_modification (chunks : List (List Char))
    (hne : ∀ c ∈ chunks, c ≠ []) :
    relay_sent chunks = chunks.flatten ∨
    (∃ pre c post, chunks = pre ++ c :: post ∧
      relay_sent chunks = pre.flatten ++ HTTP10_200 ++ (c :: post).flatten) ∨
    (∃ pre c post, chunks = pre ++ c :: post ∧ c.take 8 = STATUS_LITERAL ∧
      relay_sent chunks = pre.flatten ++ HTTP10 ++ c.drop 8 ++ post.flatten) :=
  relay_one_modification chunks hne

/-- Witness of C19: the status line is inserted before the second chunk only. -/
theorem relay_at_most_one_modification_witness :
    (∀ c ∈ ["He".toList, "llo, ".toList, "world".toList], c ≠ []) ∧
    (relay_sent ["He".toList, "llo, ".toList, "world".toList] =
        ["He".toList, "llo, ".toList, "world".toList].flatten ∨
      (∃ pre c post, ["He".toList, "llo, ".toList, "world".toList] = pre ++ c :: post ∧
        relay_sent ["He".toList, "llo, ".toList, "world".toList] =
          pre.flatten ++ HTTP10_200 ++ (c :: post).flatten) ∨
      (∃ pre c post, ["He".toList, "llo, ".toList, "world".toList] = pre ++ c :: post ∧
        c.take 8 = STATUS_LITERAL ∧
        relay_sent ["He".toList, "llo, ".toList, "world".toList] =
          pre.flatten ++ HTTP10 ++ c.drop 8 ++ post.flatten)) :=
  ⟨by decide,
   relay_at_most_one_modification ["He".toList, "llo, ".toList, "world".toList] (by decide)⟩

/-! ## Bounds along `mk_iov_add_entry` runs -/

theorem fit_inv_create (n offset : Int) (junk_io : Nat → iovec) (junk_buf : Nat → Ptr)
    (hn : offset ≤ n) : fit_inv n offset (mk_iov_create n offset junk_io junk_buf) := by
  simp [fit_inv, mk_iov_create, mk_mem_malloc_length, hn]

theorem registered_buf_idx_le (FB : Int) (s : mk_iov) (buf : Ptr) (free : Int) :
    s.buf_idx ≤ (registered FB s buf free).buf_idx ∧
      (registered FB s buf free).buf_idx ≤ s.buf_idx + 1 := by
  unfold registered
  split_ifs
  · constructor
    · show s.buf_idx ≤ s.buf_idx + 1
      omega
    · exact le_refl _
  · constructor
    · exact le_refl _
    · omega

theorem registered_buf_to_free_length (FB : Int) (s : mk_iov) (buf : Ptr) (free : Int) :
    (registered FB s buf free).buf_to_free.length = s.buf_to_free.length := by
  unfold registered
  split_ifs <;> simp

theorem registered_size (FB : Int) (s : mk_iov) (buf : Ptr) (free : Int) :
    (registered FB s buf free).size = s.size := by
  unfold registered
  split_ifs <;> rfl

theorem appended_size (s : mk_iov) (buf : Ptr) (len : Int) (sep : mk_pointer) :
    (appended s buf len sep).size = s.size := by
  unfold appended
  split_ifs <;> rfl

theorem fit_inv_run (FB n offset : Int) (h0 : 0 ≤ offset) :
    ∀ (calls : List Call) (s : mk_iov), fit_inv n offset s →
      adds_fit n s.iov_idx calls = true →
      ∃ s', run FB s calls = some s' ∧ fit_inv n offset s' := by
  intro calls
  induction calls with
  | nil => intro s hs _; exact ⟨s, rfl, hs⟩
  | cons c cs ih =>
    intro s hs hfit
    cases c with
    | add_entry buf len sep free =>
      simp only [adds_fit, Bool.and_eq_true, decide_eq_true_eq] at hfit
      obtain ⟨hcap, hrest⟩ := hfit
      obtain ⟨h1, h2, h3, h4, h5, h6, h7⟩ := hs
      have hk : (1 : Int) ≤ (if sep.len > 0 then 2 else 1) := by split_ifs <;> omega
      have hroom : release_room FB (appended s buf len sep) free := by
        rw [release_room_appended]
        intro _
        exact ⟨h5, by rw [h2]; omega⟩
      have hadd := (add_entry_eq_some_iff FB s buf len sep free _ _).2
        ⟨⟨⟨by omega, by rw [h1]; omega⟩, hroom⟩, rfl, rfl⟩
      have hcur : (registered FB (appended s buf len sep) buf free).iov_idx =
          s.iov_idx + (if sep.len > 0 then 2 else 1) := by
        rw [registered_iov_idx, appended_iov_idx]
      have hb := registered_buf_idx_le FB (appended s buf len sep) buf free
      rw [appended_buf_idx] at hb
      have hnext : fit_inv n offset (registered FB (appended s buf len sep) buf free) := by
        refine ⟨?_, ?_, ?_, ?_, ?_, ?_, ?_⟩
        · rw [registered_io, appended_io_length, h1]
        · rw [registered_buf_to_free_length, appended_buf_to_free, h2]
        · rw [registered_size, appended_size, h3]
        · rw [hcur]; omega
        · omega
        · rw [hcur]; omega
        · rw [hcur]; exact hcap
      obtain ⟨s', hrun, hinv⟩ := ih _ hnext (by rw [hcur]; exact hrest)
      refine ⟨s', ?_, hinv⟩
      simp only [run, step, hadd, Option.map_some']
      exact hrun
    | set_entry buf len free idx => simp [adds_fit] at hfit
    | free_marked => simp [adds_fit] at hfit

theorem adds_fit_take (size : Int) :
    ∀ (calls : List Call) (cursor : Int) (k : Nat), adds_fit size cursor calls = true →
      adds_fit size cursor (calls.take k) = true
  | [], _, _, _ => by simp [adds_fit]
  | _ :: _, _, 0, _ => by simp [adds_fit]
  | Call.add_entry _ _ sep _ :: cs, cursor, k + 1, h => by
    simp only [adds_fit, Bool.and_eq_true, decide_eq_true_eq] at h
    simp only [List.take_succ_cons, adds_fit, Bool.and_eq_true, decide_eq_true_eq]
    exact ⟨h.1, adds_fit_take size cs _ k h.2⟩
  | Call.set_entry _ _ _ _ :: _, _, _ + 1, h => by simp [adds_fit] at h
  | Call.free_marked :: _, _, _ + 1, h => by simp [adds_fit] at h

/-- C17: on a buffer made by `mk_iov_create(n, offset)` with `0 <= offset <= n`,
for every sequence of `mk_iov_add_entry` calls each made with
`cursor + (1 or 2) <= capacity`, every prefix of the sequence runs without a
write outside the two arrays, and the state it reaches has
`iov_idx <= size` and `buf_idx <= iov_idx - offset <= n`. -/
theorem add_entry_run_in_bounds (MK_IOV_FREE_BUF n offset : Int)
    (junk_io : Nat → iovec) (junk_buf : Nat → Ptr) (calls : List Call) (k : Nat)
    (h0 : 0 ≤ offset) (hn : offset ≤ n) (hfit : adds_fit n offset calls = true) :
    ∃ s, run MK_IOV_FREE_BUF (mk_iov_create n offset junk_io junk_buf) (calls.take k) = some s ∧
      s.iov_idx ≤ s.size ∧ s.buf_idx ≤ s.iov_idx - offset ∧ s.iov_idx - offset ≤ n := by
  obtain ⟨s, hrun, h1, h2, h3, h4, h5, h6, h7⟩ :=
    fit_inv_run MK_IOV_FREE_BUF n offset h0 (calls.take k) _
      (fit_inv_create n offset junk_io junk_buf hn) (adds_fit_take n calls offset k hfit)
  exact ⟨s, hrun, by rw [h3]; exact h7, h6, by omega⟩

/-- Witness of C17: a 4-slot buffer created at offset 1, filled by an owned add
with a separator and an owned add without. -/
theorem add_entry_run_in_bounds_witness :
    ∃ s, run 1 (mk_iov_create 4 1 (fun _ => ⟨0, 0⟩) (fun _ => 0))
        ([Call.add_entry 100 5 ⟨900, 2⟩ 1, Call.add_entry 200 7 ⟨0, 0⟩ 1].take 2) = some s ∧
      s.iov_idx ≤ s.size ∧ s.buf_idx ≤ s.iov_idx - 1 ∧ s.iov_idx - 1 ≤ 4 :=
  add_entry_run_in_bounds 1 4 1 (fun _ => ⟨0, 0⟩) (fun _ => 0)
    [Call.add_entry 100 5 ⟨900, 2⟩ 1, Call.add_entry 200 7 ⟨0, 0⟩ 1] 2
    (by decide) (by decide) (by decide)

/-! ## Termination of `swrite` -/

theorem swrite_loop_stuck (data : List Char) (pos : Int) (hpos : pos > 0) :
    ∀ (fuel i : Nat) (off : Int), swrite_loop (fun _ _ => 0) data fuel i off pos 0 = none := by
  have hc : pos > 0 ∧ (0 : Int) ≥ 0 := ⟨hpos, le_refl _⟩
  intro fuel
  induction fuel with
  | zero => intro i off; simp only [swrite_loop, hc, if_true, and_self]
  | succ fuel ih =>
    intro i off
    simp only [swrite_loop, hc, if_true, and_self, add_zero, sub_zero, ih]

/-- C20: for a buffer of `count` bytes and a `write` that on every call returns
a negative value or a value between 1 and the number of bytes offered, `swrite`
returns once `count` iterations are allowed, having made at most `count` calls
of `write`.  The progress assumption is needed: with a `write` that always
returns 0 and a non-empty buffer, no number of iterations makes `swrite` return. -/
theorem swrite_terminates (write : Nat → List Char → Int) (buf : List Char) (fuel : Nat)
    (hsize : buf.length < 2 ^ 63) (hfuel : buf.length ≤ fuel)
    (hw : ∀ i offered, offered ≠ [] →
      write i offered < 0 ∨ (1 ≤ write i offered ∧ write i offered ≤ offered.length)) :
    (∃ res calls, swrite write buf buf.length fuel = some (res, calls) ∧
      calls.length ≤ buf.length) ∧
    (buf ≠ [] → ∀ fuel2, swrite (fun _ _ => 0) buf buf.length fuel2 = none) := by
  constructor
  · obtain ⟨last, calls, hl, _, _, _, hlen⟩ :=
      swrite_loop_spec write buf hw fuel 0 0 (Nat.zero_le _) (by omega) 0 (le_refl _)
    simp only [Nat.sub_zero, Nat.cast_zero] at hl hlen
    exact ⟨if last < 0 then 0 else 1, calls,
      by simp only [swrite, to_ssize_of_lt buf.length hsize, hl], hlen⟩
  · intro hne fuel2
    have hpos : ((buf.length : Nat) : Int) > 0 := by
      have := List.length_pos.2 hne
      omega
    simp only [swrite, to_ssize_of_lt buf.length hsize,
      swrite_loop_stuck buf _ hpos fuel2 0 0]

/-- Witness of C20: a destination that accepts one byte per call. -/
theorem swrite_terminates_witness :
    (∃ res calls, swrite (fun _ _ => 1) "abc".toList "abc".toList.length 3 = some (res, calls) ∧
      calls.length ≤ "abc".toList.length) ∧
    ("abc".toList ≠ [] →
      ∀ fuel2, swrite (fun _ _ => 0) "abc".toList "abc".toList.length fuel2 = none) :=
  swrite_terminates (fun _ _ => 1) "abc".toList 3 (by decide) (by decide)
    (by
      intro i offered hne
      right
      have : 0 < offered.length := List.length_pos.2 hne
      dsimp only
      omega)

/-! ## The environment array of `do_cgi` -/

theorem takeWhile_name (name rest : List Char) (hname : ∀ c ∈ name, c ≠ '=') :
    (name ++ '=' :: rest).takeWhile (fun c => decide (c ≠ '=')) = name := by
  induction name with
  | nil => simp
  | cons c cs ih =>
    have hc : c ≠ '=' := hname c (List.mem_cons_self _ _)
    have := ih (fun d hd => hname d (List.mem_cons_of_mem _ hd))
    simpa [List.takeWhile_cons, hc] using this

theorem dropWhile_name (name rest : List Char) (hname : ∀ c ∈ name, c ≠ '=') :
    (name ++ '=' :: rest).dropWhile (fun c => decide (c ≠ '=')) = '=' :: rest := by
  induction name with
  | nil => simp
  | cons c cs ih =>
    have hc : c ≠ '=' := hname c (List.mem_cons_self _ _)
    have := ih (fun d hd => hname d (List.mem_cons_of_mem _ hd))
    simpa [List.dropWhile_cons, hc] using this

theorem snprintf_literal (size : Nat) (lit v : List Char) (hsz : lit.length ≤ size - 1) :
    snprintf size (lit ++ v) = lit ++ v.take (size - 1 - lit.length) := by
  unfold snprintf
  rw [List.take_append_eq_append_take, List.take_of_length_le hsz]

theorem entry_name_snprintf (size : Nat) (lit name v : List Char)
    (hlit : lit = name ++ ['=']) (hname : ∀ c ∈ name, c ≠ '=') (hsz : lit.length ≤ size - 1) :
    entry_name (snprintf size (lit ++ v)) = name := by
  rw [snprintf_literal size lit v hsz, hlit, List.append_assoc, List.singleton_append]
  exact takeWhile_name name _ hname

theorem entry_value_snprintf (size : Nat) (lit name v : List Char)
    (hlit : lit = name ++ ['=']) (hname : ∀ c ∈ name, c ≠ '=') (hsz : lit.length ≤ size - 1) :
    entry_value (snprintf size (lit ++ v)) = v.take (size - 1 - lit.length) := by
  rw [snprintf_literal size lit v hsz, hlit, List.append_assoc, List.singleton_append]
  unfold entry_value
  rw [dropWhile_name name _ hname]
  rfl

theorem entry_name_method (sr : session_request) :
    entry_name (env_method sr) = "REQUEST_METHOD".toList :=
  entry_name_snprintf _ _ _ _ (by decide) (by decide) (by decide)

theorem entry_name_server_software (sr : session_request) :
    entry_name (env_server_software sr) = "SERVER_SOFTWARE".toList :=
  entry_name_snprintf _ _ _ _ (by decide) (by decide) (by decide)

theorem entry_name_http_host (sr : session_request) :
    entry_name (env_http_host sr) = "HTTP_HOST".toList :=
  entry_name_snprintf _ _ _ _ (by decide) (by decide) (by decide)

theorem entry_name_server_protocol (H : cgi_headers) (sr : session_request) :
    entry_name (env_server_protocol H sr) = "SERVER_PROTOCOL".toList :=
  entry_name_snprintf _ _ _ _ (by decide) (by decide) (by decide)

theorem entry_name_request_uri (url : List Char) (sr : session_request) :
    entry_name (env_request_uri url sr) = "REQUEST_URI".toList := by
  unfold env_request_uri
  split_ifs
  · rw [List.append_assoc, List.append_assoc]
    exact entry_name_snprintf _ _ _ _ (by decide) (by decide) (by decide)
  · exact entry_name_snprintf _ _ _ _ (by decide) (by decide) (by decide)

theorem entry_name_script_filename (file : List Char) :
    entry_name (env_script_filename file) = "SCRIPT_FILENAME".toList :=
  entry_name_snprintf _ _ _ _ (by decide) (by decide) (by decide)

theorem entry_name_script_name (url : List Char) :
    entry_name (env_script_name url) = "SCRIPT_NAME".toList :=
  entry_name_snprintf _ _ _ _ (by decide) (by decide) (by decide)

theorem entry_name_query_string (sr : session_request) :
    entry_name (env_query_string sr) = "QUERY_STRING".toList :=
  entry_name_snprintf _ _ _ _ (by decide) (by decide) (by decide)

theorem entry_name_remote_addr (H : cgi_headers) (ip_ret : Int) (ip_text : List Char) :
    entry_name (env_remote_addr H ip_ret ip_text) = "REMOTE_ADDR".toList :=
  entry_name_snprintf _ _ _ _ (by decide)
    (by decide) (by
      have h : "REMOTE_ADDR=".toList.length = 12 := by decide
      rw [h]; unfold SHORTLEN; omega)

theorem entry_name_remote_port (sr : session_request) :
    entry_name (env_remote_port sr) = "REMOTE_PORT".toList :=
  entry_name_snprintf _ _ _ _ (by decide) (by decide) (by decide)

theorem entry_name_content_length (sr : session_request) :
    entry_name (env_content_length sr) = "CONTENT_LENGTH".toList :=
  entry_name_snprintf _ _ _ _ (by decide) (by decide) (by decide)

theorem entry_name_content_type (sr : session_request) :
    entry_name (env_content_type sr) = "CONTENT_TYPE".toList :=
  entry_name_snprintf _ _ _ _ (by decide) (by decide) (by decide)

theorem do_cgi_env_names (H : cgi_headers) (file url : List Char) (ip_ret : Int)
    (ip_text : List Char) (sr : session_request) :
    (do_cgi_env H file url ip_ret ip_text sr).map entry_name =
      ["PATH_INFO".toList, "GATEWAY_INTERFACE".toList, "REDIRECT_STATUS".toList,
        "REQUEST_METHOD".toList, "SERVER_SOFTWARE".toList, "HTTP_HOST".toList,
        "SERVER_PROTOCOL".toList, "REQUEST_URI".toList, "SCRIPT_FILENAME".toList,
        "SCRIPT_NAME".toList] ++
      (if sr.query_string.len ≠ 0 then ["QUERY_STRING".toList] else []) ++
      ["REMOTE_ADDR".toList, "REMOTE_PORT".toList] ++
      (if sr.data.len ≠ 0 then ["CONTENT_LENGTH".toList] else []) ++
      (if sr.content_type.len ≠ 0 then ["CONTENT_TYPE".toList] else []) := by
  have e0 : entry_name "PATH_INFO=".toList = "PATH_INFO".toList := by decide
  have e1 : entry_name "GATEWAY_INTERFACE=CGI/1.1".toList = "GATEWAY_INTERFACE".toList := by
    decide
  have e2 : entry_name "REDIRECT_STATUS=200".toList = "REDIRECT_STATUS".toList := by decide
  unfold do_cgi_env
  by_cases hq : sr.query_string.len = 0 <;> by_cases hd : sr.data.len = 0 <;>
    by_cases ht : sr.content_type.len = 0 <;>
    simp only [hq, hd, ht, ne_eq, not_true_eq_false, not_false_eq_true, if_true, if_false,
      List.map_append, List.map_cons, List.map_nil,
      e0, e1, e2, entry_name_method, entry_name_server_software, entry_name_http_host,
      entry_name_server_protocol, entry_name_request_uri, entry_name_script_filename,
      entry_name_script_name, entry_name_query_string, entry_name_remote_addr,
      entry_name_remote_port, entry_name_content_length, entry_name_content_type,
      List.cons_append, List.nil_append, List.append_nil]

/-- C12: the names of the entries of the environment array built by `do_cgi`
are pairwise distinct; each of the twelve unconditional names occurs exactly
once; `QUERY_STRING`, `CONTENT_LENGTH` and `CONTENT_TYPE` occur exactly when
`sr->query_string.len`, `sr->data.len` and `sr->content_type.len` are not 0; and
no other name occurs. -/
theorem do_cgi_env_entries (H : cgi_headers) (file url : List Char) (ip_ret : Int)
    (ip_text : List Char) (sr : session_request) :
    ((do_cgi_env H file url ip_ret ip_text sr).map entry_name).Nodup ∧
    (∀ name ∈ unconditional_names,
      ((do_cgi_env H file url ip_ret ip_text sr).map entry_name).count name = 1) ∧
    ("QUERY_STRING".toList ∈ (do_cgi_env H file url ip_ret ip_text sr).map entry_name ↔
      sr.query_string.len ≠ 0) ∧
    ("CONTENT_LENGTH".toList ∈ (do_cgi_env H file url ip_ret ip_text sr).map entry_name ↔
      sr.data.len ≠ 0) ∧
    ("CONTENT_TYPE".toList ∈ (do_cgi_env H file url ip_ret ip_text sr).map entry_name ↔
      sr.content_type.len ≠ 0) ∧
    (∀ name ∈ (do_cgi_env H file url ip_ret ip_text sr).map entry_name,
      name ∈ unconditional_names ++
        ["QUERY_STRING".toList, "CONTENT_LENGTH".toList, "CONTENT_TYPE".toList]) := by
  rw [do_cgi_env_names]
  by_cases hq : sr.query_string.len = 0 <;> by_cases hd : sr.data.len = 0 <;>
    by_cases ht : sr.content_type.len = 0 <;>
    simp only [hq, hd, ht, ne_eq, not_true_eq_false, not_false_eq_true, if_true, if_false] <;>
    decide

theorem env_lookup_at (name : List Char) (pre : List (List Char)) (e : List Char)
    (post : List (List Char)) (hpre : ∀ x ∈ pre, entry_name x ≠ name)
    (he : entry_name e = name) :
    env_lookup name (pre ++ e :: post) = some (entry_value e) := by
  unfold env_lookup
  induction pre with
  | nil => simp [List.find?_cons, he]
  | cons x xs ih =>
    have hx : entry_name x ≠ name := hpre x (List.mem_cons_self _ _)
    have := ih (fun y hy => hpre y (List.mem_cons_of_mem _ hy))
    simpa [List.find?_cons, hx] using this

theorem do_cgi_env_head (H : cgi_headers) (file url : List Char) (ip_ret : Int)
    (ip_text : List Char) (sr : session_request) :
    ∃ tail, do_cgi_env H file url ip_ret ip_text sr =
      ["PATH_INFO=".toList, "GATEWAY_INTERFACE=CGI/1.1".toList, "REDIRECT_STATUS=200".toList,
        env_method sr, env_server_software sr, env_http_host sr, env_server_protocol H sr,
        env_request_uri url sr, env_script_filename file, env_script_name url] ++ tail := by
  unfold do_cgi_env
  by_cases hq : sr.query_string.len = 0 <;> by_cases hd : sr.data.len = 0 <;>
    by_cases ht : sr.content_type.len = 0 <;>
    simp only [hq, hd, ht, ne_eq, not_true_eq_false, not_false_eq_true, if_true, if_false,
      List.cons_append, List.nil_append, List.append_assoc] <;>
    exact ⟨_, rfl⟩

theorem env_lookup_request_uri (H : cgi_headers) (file url : List Char) (ip_ret : Int)
    (ip_text : List Char) (sr : session_request) :
    env_lookup "REQUEST_URI".toList (do_cgi_env H file url ip_ret ip_text sr) =
      some (entry_value (env_request_uri url sr)) := by
  obtain ⟨tail, h⟩ := do_cgi_env_head H file url ip_ret ip_text sr
  rw [h]
  refine env_lookup_at _ ["PATH_INFO=".toList, "GATEWAY_INTERFACE=CGI/1.1".toList,
    "REDIRECT_STATUS=200".toList, env_method sr, env_server_software sr, env_http_host sr,
    env_server_protocol H sr] _ _ ?_ (entry_name_request_uri url sr)
  intro x hx
  simp only [List.mem_cons, List.mem_singleton, List.not_mem_nil, or_false] at hx
  rcases hx with rfl | rfl | rfl | rfl | rfl | rfl | rfl
  · decide
  · decide
  · decide
  · rw [entry_name_method]; decide
  · rw [entry_name_server_software]; decide
  · rw [entry_name_http_host]; decide
  · rw [entry_name_server_protocol]; decide

theorem env_lookup_script_name (H : cgi_headers) (file url : List Char) (ip_ret : Int)
    (ip_text : List Char) (sr : session_request) :
    env_lookup "SCRIPT_NAME".toList (do_cgi_env H file url ip_ret ip_text sr) =
      some (entry_value (env_script_name url)) := by
  obtain ⟨tail, h⟩ := do_cgi_env_head H file url ip_ret ip_text sr
  rw [h]
  refine env_lookup_at _ ["PATH_INFO=".toList, "GATEWAY_INTERFACE=CGI/1.1".toList,
    "REDIRECT_STATUS=200".toList, env_method sr, env_server_software sr, env_http_host sr,
    env_server_protocol H sr, env_request_uri url sr, env_script_filename file] _ _ ?_
    (entry_name_script_name url)
  intro x hx
  simp only [List.mem_cons, List.mem_singleton, List.not_mem_nil, or_false] at hx
  rcases hx with rfl | rfl | rfl | rfl | rfl | rfl | rfl | rfl | rfl
  · decide
  · decide
  · decide
  · rw [entry_name_method]; decide
  · rw [entry_name_server_software]; decide
  · rw [entry_name_http_host]; decide
  · rw [entry_name_server_protocol]; decide
  · rw [entry_name_request_uri]; decide
  · rw [entry_name_script_filename]; decide

theorem entry_value_script_name (url : List Char) :
    entry_value (env_script_name url) = (c_str url).take 1011 :=
  entry_value_snprintf _ _ "SCRIPT_NAME".toList _ (by decide) (by decide) (by decide)

theorem entry_value_request_uri (url : List Char) (sr : session_request) :
    entry_value (env_request_uri url sr) =
      if sr.query_string.len ≠ 0 then
        (c_str url ++ "?".toList ++ c_str (query_copy sr)).take 1011
      else (c_str url).take 1011 := by
  unfold env_request_uri
  split_ifs
  · rw [List.append_assoc, List.append_assoc, ← List.append_assoc (c_str url)]
    exact entry_value_snprintf _ _ "REQUEST_URI".toList _ (by decide) (by decide) (by decide)
  · exact entry_value_snprintf _ _ "REQUEST_URI".toList _ (by decide) (by decide) (by decide)

/-- C13 (as amended): the value of the `REQUEST_URI` entry equals the value of
the `SCRIPT_NAME` entry when `sr->query_string.len` is 0; otherwise it is the
first 1011 bytes of the URI followed by `?` and the query string, which is the
`SCRIPT_NAME` value followed by `?` and the query string when these fit in 1011
bytes. -/
theorem request_uri_script_name (H : cgi_headers) (file url : List Char) (ip_ret : Int)
    (ip_text : List Char) (sr : session_request) :
    ∃ uri name,
      env_lookup "REQUEST_URI".toList (do_cgi_env H file url ip_ret ip_text sr) = some uri ∧
      env_lookup "SCRIPT_NAME".toList (do_cgi_env H file url ip_ret ip_text sr) = some name ∧
      (sr.query_string.len = 0 → uri = name) ∧
      (sr.query_string.len ≠ 0 →
        uri = (c_str url ++ "?".toList ++ c_str (query_copy sr)).take 1011 ∧
        ((c_str url).length + 1 + (c_str (query_copy sr)).length ≤ 1011 →
          uri = name ++ "?".toList ++ c_str (query_copy sr))) := by
  refine ⟨_, _, env_lookup_request_uri H file url ip_ret ip_text sr,
    env_lookup_script_name H file url ip_ret ip_text sr, ?_, ?_⟩
  · intro h0
    rw [entry_value_request_uri, entry_value_script_name, if_neg (by simp [h0])]
  · intro h0
    rw [entry_value_request_uri, entry_value_script_name, if_pos h0]
    refine ⟨rfl, ?_⟩
    intro hfit
    have h1 : (c_str url ++ "?".toList ++ c_str (query_copy sr)).length ≤ 1011 := by
      simp only [List.length_append]
      have : "?".toList.length = 1 := by decide
      omega
    rw [List.take_of_length_le h1, List.take_of_length_le (by omega)]

/-- Witness of C13 (as amended): the request `/x.cgi?a=1&b=2`. -/
theorem request_uri_script_name_witness :
    env_lookup "REQUEST_URI".toList
        (do_cgi_env example_headers "/srv/x.cgi".toList "/x.cgi".toList 0 "10.0.0.1".toList
          example_request) = some "/x.cgi?a=1&b=2".toList ∧
    env_lookup "SCRIPT_NAME".toList
        (do_cgi_env example_headers "/srv/x.cgi".toList "/x.cgi".toList 0 "10.0.0.1".toList
          example_request) = some "/x.cgi".toList ∧
    ∃ uri name,
      env_lookup "REQUEST_URI".toList
          (do_cgi_env example_headers "/srv/x.cgi".toList "/x.cgi".toList 0 "10.0.0.1".toList
            example_request) = some uri ∧
      env_lookup "SCRIPT_NAME".toList
          (do_cgi_env example_headers "/srv/x.cgi".toList "/x.cgi".toList 0 "10.0.0.1".toList
            example_request) = some name ∧
      (example_request.query_string.len = 0 → uri = name) ∧
      (example_request.query_string.len ≠ 0 →
        uri = (c_str "/x.cgi".toList ++ "?".toList ++ c_str (query_copy example_request)).take
          1011 ∧
        ((c_str "/x.cgi".toList).length + 1 + (c_str (query_copy example_request)).length ≤
            1011 →
          uri = name ++ "?".toList ++ c_str (query_copy example_request))) :=
  ⟨by decide, by decide,
   request_uri_script_name example_headers "/srv/x.cgi".toList "/x.cgi".toList 0
    "10.0.0.1".toList example_request⟩

/-- Counterexample to C13 as stated: with a URI of 1011 bytes and the query
string `a=1&b=2`, the `REQUEST_URI` value is the URI alone (1011 bytes, the `?`
and the query string cut off by the 1024-byte buffer), not the `SCRIPT_NAME`
value followed by `?` and the query string. -/
theorem request_uri_truncated :
    example_request.query_string.len ≠ 0 ∧
    env_lookup "REQUEST_URI".toList
        (do_cgi_env example_headers "/srv/x.cgi".toList (List.replicate 1011 'a') 0
          "10.0.0.1".toList example_request) = some (List.replicate 1011 'a') ∧
    env_lookup "SCRIPT_NAME".toList
        (do_cgi_env example_headers "/srv/x.cgi".toList (List.replicate 1011 'a') 0
          "10.0.0.1".toList example_request) = some (List.replicate 1011 'a') ∧
    List.replicate 1011 'a' ≠
      List.replicate 1011 'a' ++ "?".toList ++ c_str (query_copy example_request) := by
  refine ⟨by decide, ?_, ?_, ?_⟩
  · rw [env_lookup_request_uri, entry_value_request_uri, if_pos (by decide)]
    have hc : c_str (List.replicate 1011 'a') = List.replicate 1011 'a' := by
      unfold c_str
      rw [List.takeWhile_eq_self_iff]
      intro c hc
      rw [List.eq_of_mem_replicate hc]
      decide
    rw [hc, List.append_assoc,
      List.take_append_of_le_length (by rw [List.length_replicate]),
      List.take_of_length_le (by rw [List.length_replicate])]
  · rw [env_lookup_script_name, entry_value_script_name]
    have hc : c_str (List.replicate 1011 'a') = List.replicate 1011 'a' := by
      unfold c_str
      rw [List.takeWhile_eq_self_iff]
      intro c hc
      rw [List.eq_of_mem_replicate hc]
      decide
    rw [hc, List.take_of_length_le (by rw [List.length_replicate])]
  · intro h
    have := congrArg List.length h
    have h1 : "?".toList.length = 1 := by decide
    simp only [List.length_append, List.length_replicate, h1] at this
    omega

theorem snprintf_truncated (H : cgi_headers) (size : Nat) (lit name v : List Char)
    (hlit : lit = name ++ ['=']) (hname : ∀ c ∈ name, c ≠ '=')
    (hsize : field_size H name = size) :
    snprintf size (lit ++ v) = truncated H (lit ++ v) := by
  have hn : entry_name (lit ++ v) = name := by
    rw [hlit, List.append_assoc, List.singleton_append]
    exact takeWhile_name name _ hname
  unfold truncated snprintf
  rw [hn, hsize]

theorem field_size_short (H : cgi_headers) (name : List Char)
    (h : name ∈ ["REQUEST_METHOD".toList, "SERVER_SOFTWARE".toList, "HTTP_HOST".toList,
      "SERVER_PROTOCOL".toList, "REMOTE_PORT".toList, "CONTENT_LENGTH".toList,
      "CONTENT_TYPE".toList]) : field_size H name = SHORTLEN := by
  unfold field_size
  rw [if_pos h]
  rfl

theorem field_size_path (H : cgi_headers) (name : List Char)
    (h0 : name ∉ ["REQUEST_METHOD".toList, "SERVER_SOFTWARE".toList, "HTTP_HOST".toList,
      "SERVER_PROTOCOL".toList, "REMOTE_PORT".toList, "CONTENT_LENGTH".toList,
      "CONTENT_TYPE".toList])
    (h : name ∈ ["REQUEST_URI".toList, "SCRIPT_FILENAME".toList, "SCRIPT_NAME".toList,
      "QUERY_STRING".toList]) : field_size H name = PATHLEN := by
  unfold field_size
  rw [if_neg h0, if_pos h]
  rfl

theorem c_str_nul_cons (mem : List Char) : c_str (NUL :: mem) = [] := by
  simp [c_str]

theorem do_cgi_env_eq (H : cgi_headers) (file url : List Char) (ip_ret : Int)
    (ip_text : List Char) (sr : session_request) :
    do_cgi_env H file url ip_ret ip_text sr =
      ["PATH_INFO=".toList, "GATEWAY_INTERFACE=CGI/1.1".toList, "REDIRECT_STATUS=200".toList,
        env_method sr, env_server_software sr, env_http_host sr, env_server_protocol H sr,
        env_request_uri url sr, env_script_filename file, env_script_name url] ++
      (if sr.query_string.len ≠ 0 then [env_query_string sr] else []) ++
      [env_remote_addr H ip_ret ip_text, env_remote_port sr] ++
      (if sr.data.len ≠ 0 then [env_content_length sr] else []) ++
      (if sr.content_type.len ≠ 0 then [env_content_type sr] else []) := by
  unfold do_cgi_env
  by_cases hq : sr.query_string.len = 0 <;> by_cases hd : sr.data.len = 0 <;>
    by_cases ht : sr.content_type.len = 0 <;>
    simp only [hq, hd, ht, ne_eq, not_true_eq_false, not_false_eq_true, if_true, if_false,
      List.cons_append, List.nil_append, List.append_assoc, List.append_nil]

theorem env_method_truncated (H : cgi_headers) (sr : session_request) :
    env_method sr = truncated H ("REQUEST_METHOD=".toList ++ c_str sr.method_p.data) :=
  snprintf_truncated H _ _ "REQUEST_METHOD".toList _ (by decide) (by decide)
      (field_size_short H _ (by decide))

theorem env_server_software_truncated (H : cgi_headers) (sr : session_request) :
    env_server_software sr =
      truncated H ("SERVER_SOFTWARE=".toList ++ c_str sr.host_signature) :=
  snprintf_truncated H _ _ "SERVER_SOFTWARE".toList _ (by decide) (by decide)
      (field_size_short H _ (by decide))

theorem env_http_host_truncated (H : cgi_headers) (sr : session_request) :
    env_http_host sr =
      truncated H ("HTTP_HOST=".toList ++ fmt_prec_s (to_int sr.host.len) sr.host.data) :=
  snprintf_truncated H _ _ "HTTP_HOST".toList _ (by decide) (by decide)
      (field_size_short H _ (by decide))

theorem env_server_protocol_truncated (H : cgi_headers) (sr : session_request) :
    env_server_protocol H sr =
      truncated H ("SERVER_PROTOCOL=".toList ++ c_str
        (if sr.protocol = H.HTTP_PROTOCOL_11 then H.HTTP_PROTOCOL_11_STR
         else H.HTTP_PROTOCOL_10_STR)) :=
  snprintf_truncated H _ _ "SERVER_PROTOCOL".toList _ (by decide) (by decide)
      (field_size_short H _ (by decide))

theorem env_request_uri_truncated (H : cgi_headers) (url : List Char) (sr : session_request) :
    env_request_uri url sr =
      truncated H ("REQUEST_URI=".toList ++
        (if sr.query_string.len ≠ 0 then c_str url ++ "?".toList ++ c_str (query_copy sr)
         else c_str url)) := by
  unfold env_request_uri
  split_ifs
  · rw [List.append_assoc, List.append_assoc, ← List.append_assoc (c_str url)]
    exact snprintf_truncated H _ _ "REQUEST_URI".toList _ (by decide) (by decide)
      (field_size_path H _ (by decide) (by decide))
  · exact snprintf_truncated H _ _ "REQUEST_URI".toList _ (by decide) (by decide)
      (field_size_path H _ (by decide) (by decide))

theorem env_script_filename_truncated (H : cgi_headers) (file : List Char) :
    env_script_filename file = truncated H ("SCRIPT_FILENAME=".toList ++ c_str file) :=
  snprintf_truncated H _ _ "SCRIPT_FILENAME".toList _ (by decide) (by decide)
      (field_size_path H _ (by decide) (by decide))

theorem env_script_name_truncated (H : cgi_headers) (url : List Char) :
    env_script_name url = truncated H ("SCRIPT_NAME=".toList ++ c_str url) :=
  snprintf_truncated H _ _ "SCRIPT_NAME".toList _ (by decide) (by decide)
      (field_size_path H _ (by decide) (by decide))

theorem env_query_string_truncated (H : cgi_headers) (sr : session_request) :
    env_query_string sr = truncated H ("QUERY_STRING=".toList ++ c_str (query_copy sr)) :=
  snprintf_truncated H _ _ "QUERY_STRING".toList _ (by decide) (by decide)
      (field_size_path H _ (by decide) (by decide))

theorem env_remote_addr_truncated (H : cgi_headers) (ip_ret : Int) (ip_text : List Char) :
    env_remote_addr H ip_ret ip_text =
      truncated H ("REMOTE_ADDR=".toList ++ (if ip_ret < 0 then [] else c_str ip_text)) := by
  unfold env_remote_addr
  have hs : field_size H "REMOTE_ADDR".toList = H.INET6_ADDRSTRLEN + SHORTLEN := by
    unfold field_size
    rw [if_neg (by decide), if_neg (by decide)]
    rfl
  split_ifs
  · simp only [c_str_nul_cons]
    exact snprintf_truncated H _ _ "REMOTE_ADDR".toList _ (by decide) (by decide) hs
  · exact snprintf_truncated H _ _ "REMOTE_ADDR".toList _ (by decide) (by decide) hs

theorem env_remote_port_truncated (H : cgi_headers) (sr : session_request) :
    env_remote_port sr = truncated H ("REMOTE_PORT=".toList ++ fmt_ld sr.port) :=
  snprintf_truncated H _ _ "REMOTE_PORT".toList _ (by decide) (by decide)
      (field_size_short H _ (by decide))

theorem env_content_length_truncated (H : cgi_headers) (sr : session_request) :
    env_content_length sr = truncated H ("CONTENT_LENGTH=".toList ++ fmt_lu sr.data.len) :=
  snprintf_truncated H _ _ "CONTENT_LENGTH".toList _ (by decide) (by decide)
      (field_size_short H _ (by decide))

theorem env_content_type_truncated (H : cgi_headers) (sr : session_request) :
    env_content_type sr =
      truncated H ("CONTENT_TYPE=".toList ++ c_str sr.content_type.data) :=
  snprintf_truncated H _ _ "CONTENT_TYPE".toList _ (by decide) (by decide)
      (field_size_short H _ (by decide))

theorem do_cgi_env_truncated (H : cgi_headers) (file url : List Char) (ip_ret : Int)
    (ip_text : List Char) (sr : session_request) :
    do_cgi_env H file url ip_ret ip_text sr =
      ["PATH_INFO=".toList, "GATEWAY_INTERFACE=CGI/1.1".toList, "REDIRECT_STATUS=200".toList] ++
        (untruncated_env H file url ip_ret ip_text sr).map (truncated H) := by
  rw [do_cgi_env_eq]
  unfold untruncated_env
  rw [env_method_truncated H, env_server_software_truncated H, env_http_host_truncated H,
    env_server_protocol_truncated H, env_request_uri_truncated H,
    env_script_filename_truncated H, env_script_name_truncated H,
    env_query_string_truncated H, env_remote_addr_truncated H, env_remote_port_truncated H,
    env_content_length_truncated H, env_content_type_truncated H]
  by_cases hq : sr.query_string.len = 0 <;> by_cases hd : sr.data.len = 0 <;>
    by_cases ht : sr.content_type.len = 0 <;>
    simp only [hq, hd, ht, ne_eq, not_true_eq_false, not_false_eq_true, if_true, if_false,
      List.cons_append, List.nil_append, List.append_assoc, List.append_nil, List.map_cons,
      List.map_nil, List.map_append]

theorem to_int_of_lt (x : Nat) (h : x < 2 ^ 31) : to_int x = x := by
  unfold to_int
  have h2 : x % 2 ^ 32 = x := Nat.mod_eq_of_lt (by omega)
  rw [h2, if_pos h]

theorem c_str_take :
    ∀ (mem : List Char) (n : Nat), NUL ∉ mem.take n → (c_str mem).take n = mem.take n
  | [], _, _ => by simp [c_str]
  | _ :: _, 0, _ => by simp
  | c :: cs, n + 1, h => by
    rw [List.take_succ_cons] at h
    have hc : c ≠ NUL := fun e => h (e ▸ List.mem_cons_self _ _)
    have ih := c_str_take cs n (fun hm => h (List.mem_cons_of_mem _ hm))
    unfold c_str at ih ⊢
    rw [List.takeWhile_cons, if_pos (by simpa using hc), List.take_succ_cons, ih,
      List.take_succ_cons]

theorem fmt_lu_length (n : Nat) (h : n < 2 ^ 64) : (fmt_lu n).length ≤ 20 := by
  unfold fmt_lu Nat.toDigits
  exact Nat.toDigitsCore_length 10 (by decide) (n + 1) n 20
    (lt_of_lt_of_le h (by norm_num)) (by decide)

theorem env_lookup_http_host (H : cgi_headers) (file url : List Char) (ip_ret : Int)
    (ip_text : List Char) (sr : session_request) :
    env_lookup "HTTP_HOST".toList (do_cgi_env H file url ip_ret ip_text sr) =
      some (entry_value (env_http_host sr)) := by
  obtain ⟨tail, h⟩ := do_cgi_env_head H file url ip_ret ip_text sr
  rw [h]
  refine env_lookup_at _ ["PATH_INFO=".toList, "GATEWAY_INTERFACE=CGI/1.1".toList,
    "REDIRECT_STATUS=200".toList, env_method sr, env_server_software sr] _ _ ?_
    (entry_name_http_host sr)
  intro x hx
  simp only [List.mem_cons, List.mem_singleton, List.not_mem_nil, or_false] at hx
  rcases hx with rfl | rfl | rfl | rfl | rfl
  · decide
  · decide
  · decide
  · rw [entry_name_method]; decide
  · rw [entry_name_server_software]; decide

theorem env_lookup_content_length (H : cgi_headers) (file url : List Char) (ip_ret : Int)
    (ip_text : List Char) (sr : session_request) (hd : sr.data.len ≠ 0) :
    env_lookup "CONTENT_LENGTH".toList (do_cgi_env H file url ip_ret ip_text sr) =
      some (entry_value (env_content_length sr)) := by
  rw [do_cgi_env_eq, if_pos hd, List.append_assoc, List.singleton_append]
  refine env_lookup_at _ _ _ _ ?_ (entry_name_content_length sr)
  intro x hx
  simp only [List.mem_append, List.mem_cons, List.mem_singleton, List.not_mem_nil,
    or_false] at hx
  rcases hx with ((rfl | rfl | rfl | rfl | rfl | rfl | rfl | rfl | rfl | rfl) | hq) |
    (rfl | rfl)
  · decide
  · decide
  · decide
  · rw [entry_name_method]; decide
  · rw [entry_name_server_software]; decide
  · rw [entry_name_http_host]; decide
  · rw [entry_name_server_protocol]; decide
  · rw [entry_name_request_uri]; decide
  · rw [entry_name_script_filename]; decide
  · rw [entry_name_script_name]; decide
  · split_ifs at hq
    · rw [List.mem_singleton.1 hq, entry_name_query_string]; decide
    · simp at hq
  · rw [entry_name_remote_addr]; decide
  · rw [entry_name_remote_port]; decide

/-- C18: the environment array is the three constant entries followed by the
untruncated texts `NAME=value` of the dynamic entries, each cut to the first
`B - 1` bytes, `B` being 36 for `REQUEST_METHOD`, `SERVER_SOFTWARE`, `HTTP_HOST`,
`SERVER_PROTOCOL`, `REMOTE_PORT`, `CONTENT_LENGTH`, `CONTENT_TYPE` and 1024 for
`REQUEST_URI`, `SCRIPT_FILENAME`, `SCRIPT_NAME`, `QUERY_STRING`.  For a host of
`sr->host.len` bytes (a length that fits an `int`, no NUL among the bytes) the
`HTTP_HOST` value is the first 25 bytes of the host, the whole host when it has
at most 25 bytes; and for a body length below `2^64` the `CONTENT_LENGTH` value
is the whole decimal text of the length. -/
theorem env_fields_truncated (H : cgi_headers) (file url : List Char) (ip_ret : Int)
    (ip_text : List Char) (sr : session_request)
    (hhost : sr.host.len < 2 ^ 31) (hnul : NUL ∉ sr.host.data.take sr.host.len)
    (hlen : sr.data.len < 2 ^ 64) :
    do_cgi_env H file url ip_ret ip_text sr =
      ["PATH_INFO=".toList, "GATEWAY_INTERFACE=CGI/1.1".toList, "REDIRECT_STATUS=200".toList] ++
        (untruncated_env H file url ip_ret ip_text sr).map (truncated H) ∧
    field_size H "HTTP_HOST".toList = 36 ∧ field_size H "CONTENT_LENGTH".toList = 36 ∧
    env_lookup "HTTP_HOST".toList (do_cgi_env H file url ip_ret ip_text sr) =
      some ((sr.host.data.take sr.host.len).take 25) ∧
    ((sr.host.data.take sr.host.len).length ≤ 25 →
      env_lookup "HTTP_HOST".toList (do_cgi_env H file url ip_ret ip_text sr) =
        some (sr.host.data.take sr.host.len)) ∧
    (sr.data.len ≠ 0 →
      env_lookup "CONTENT_LENGTH".toList (do_cgi_env H file url ip_ret ip_text sr) =
        some (fmt_lu sr.data.len)) := by
  have hv : entry_value (env_http_host sr) = (sr.host.data.take sr.host.len).take 25 := by
    unfold env_http_host
    rw [entry_value_snprintf _ _ "HTTP_HOST".toList _ (by decide) (by decide) (by decide)]
    have hp : fmt_prec_s (to_int sr.host.len) sr.host.data = sr.host.data.take sr.host.len := by
      unfold fmt_prec_s
      rw [to_int_of_lt _ hhost, if_neg (by omega), Int.toNat_ofNat, c_str_take _ _ hnul]
    rw [hp]
    rfl
  refine ⟨do_cgi_env_truncated H file url ip_ret ip_text sr,
    field_size_short H _ (by decide), field_size_short H _ (by decide), ?_, ?_, ?_⟩
  · rw [env_lookup_http_host, hv]
  · intro h25
    rw [env_lookup_http_host, hv, List.take_of_length_le h25]
  · intro hd
    rw [env_lookup_content_length H file url ip_ret ip_text sr hd]
    unfold env_content_length
    rw [entry_value_snprintf _ _ "CONTENT_LENGTH".toList _ (by decide) (by decide) (by decide)]
    have h20 := fmt_lu_length sr.data.len hlen
    rw [List.take_of_length_le]
    · exact le_trans h20 (by decide)

/-- Witness of C18: the example request, whose host `example.org` has 11 bytes
and whose body has 1234 bytes. -/
theorem env_fields_truncated_witness :
    example_request.host.len < 2 ^ 31 ∧
    NUL ∉ example_request.host.data.take example_request.host.len ∧
    example_request.data.len < 2 ^ 64 ∧
    env_lookup "HTTP_HOST".toList
        (do_cgi_env example_headers "/srv/x.cgi".toList "/x.cgi".toList 0 "10.0.0.1".toList
          example_request) = some "example.org".toList ∧
    env_lookup "CONTENT_LENGTH".toList
        (do_cgi_env example_headers "/srv/x.cgi".toList "/x.cgi".toList 0 "10.0.0.1".toList
          example_request) = some "1234".toList :=
  ⟨by decide, by decide, by decide,
   ((env_fields_truncated example_headers "/srv/x.cgi".toList "/x.cgi".toList 0
      "10.0.0.1".toList example_request (by decide) (by decide) (by decide)).2.2.2.2.1
      (by decide)),
   by decide⟩

/-! ## Status returned by `do_cgi` -/

theorem relay_calls_transfer :
    ∀ (reads : List (List Char)) (headers_done : Bool),
      ∀ c ∈ relay_calls reads headers_done, c.is_transfer = true
  | [], _ => by simp [relay_calls, SysCall.is_transfer]
  | buf :: reads, hd => by
    have ih := relay_calls_transfer reads (relay_step buf hd).2
    intro c hc
    unfold relay_calls at hc
    by_cases hpos : ((buf.length : Int) > 0)
    · simp only [hpos, if_true, List.mem_cons, List.mem_append, List.mem_map] at hc
      rcases hc with rfl | ⟨p, _, rfl⟩ | h
      · rfl
      · rfl
      · exact ih c h
    · simp only [hpos, if_false, List.mem_singleton] at hc
      rw [hc]; rfl

theorem relay_calls_payloads :
    ∀ (reads : List (List Char)) (headers_done : Bool),
      (relay_calls reads headers_done).filterMap SysCall.payload =
        relay_loop reads headers_done
  | [], _ => by simp [relay_calls, relay_loop, SysCall.payload]
  | buf :: reads, hd => by
    have ih := relay_calls_payloads reads (relay_step buf hd).2
    by_cases hne : buf = []
    · subst hne
      simp [relay_calls, relay_loop, SysCall.payload]
    · have hlen : 0 < buf.length := List.length_pos.2 hne
      have hpos : ((buf.length : Int) > 0) := by omega
      have hmap : ∀ ps : List (List Char),
          (ps.map SysCall.swrite).filterMap SysCall.payload = ps := by
        intro ps
        induction ps with
        | nil => rfl
        | cons p ps ihp => simp [SysCall.payload, ihp]
      rw [relay_loop_cons buf reads hd hne]
      unfold relay_calls
      simp only [hpos, if_true, List.filterMap_cons, SysCall.payload, List.filterMap_append,
        hmap, ih]

/-- C14: with `pipe(writepipe)`, `pipe(readpipe)` and `vfork()` returning
`pipe_w`, `pipe_r` and `pid` when called, `do_cgi` returns 403 exactly when
`pipe_w` or `pipe_r` is non-zero or `pid` is negative, and 200 exactly when both
pipes return 0 and `pid` is positive (the parent; the child, `pid = 0`, does not
return).  The first `pipe` is always called, `vfork` is called exactly when both
pipes returned 0, and with the value `pid`; in terms of the calls made, 403 is
returned exactly when a `pipe` call returned non-zero or the `vfork` call
returned a negative value, and after a failed `pipe` there is no `vfork` call.
When 403 is returned no call reads from the child or writes to the client
socket; when 200 is returned the buffers written to the client socket are those
of the relay loop.  On the three failure paths the calls made are exactly the
`pipe` and `vfork` calls up to the failing one, followed by `mk_err`. -/
theorem do_cgi_status (H : cgi_headers) (file url : List Char) (ip_ret : Int)
    (ip_text : List Char) (sr : session_request) (pipe_w pipe_r pid : Int)
    (reads : List (List Char)) :
    ((do_cgi H file url ip_ret ip_text sr pipe_w pipe_r pid reads).1 = some 403 ↔
      pipe_w ≠ 0 ∨ pipe_r ≠ 0 ∨ pid < 0) ∧
    ((do_cgi H file url ip_ret ip_text sr pipe_w pipe_r pid reads).1 = some 200 ↔
      pipe_w = 0 ∧ pipe_r = 0 ∧ 0 < pid) ∧
    SysCall.pipe pipe_w ∈ (do_cgi H file url ip_ret ip_text sr pipe_w pipe_r pid reads).2 ∧
    ((∃ p, SysCall.vfork p ∈ (do_cgi H file url ip_ret ip_text sr pipe_w pipe_r pid reads).2) ↔
      pipe_w = 0 ∧ pipe_r = 0) ∧
    (∀ p, SysCall.vfork p ∈ (do_cgi H file url ip_ret ip_text sr pipe_w pipe_r pid reads).2 →
      p = pid) ∧
    ((do_cgi H file url ip_ret ip_text sr pipe_w pipe_r pid reads).1 = some 403 ↔
      (∃ r, SysCall.pipe r ∈ (do_cgi H file url ip_ret ip_text sr pipe_w pipe_r pid reads).2 ∧
        r ≠ 0) ∨
      (∃ p, SysCall.vfork p ∈ (do_cgi H file url ip_ret ip_text sr pipe_w pipe_r pid reads).2 ∧
        p < 0)) ∧
    ((do_cgi H file url ip_ret ip_text sr pipe_w pipe_r pid reads).1 = some 403 ∨
      (do_cgi H file url ip_ret ip_text sr pipe_w pipe_r pid reads).1 = some 200 ∨
      ((do_cgi H file url ip_ret ip_text sr pipe_w pipe_r pid reads).1 = none ∧
        SysCall.vfork 0 ∈ (do_cgi H file url ip_ret ip_text sr pipe_w pipe_r pid reads).2)) ∧
    ((∃ r, SysCall.pipe r ∈ (do_cgi H file url ip_ret ip_text sr pipe_w pipe_r pid reads).2 ∧
        r ≠ 0) →
      ∀ p, SysCall.vfork p ∉ (do_cgi H file url ip_ret ip_text sr pipe_w pipe_r pid reads).2) ∧
    ((do_cgi H file url ip_ret ip_text sr pipe_w pipe_r pid reads).1 = some 403 →
      ∀ c ∈ (do_cgi H file url ip_ret ip_text sr pipe_w pipe_r pid reads).2,
        c.is_transfer = false) ∧
    ((do_cgi H file url ip_ret ip_text sr pipe_w pipe_r pid reads).1 = some 200 →
      (do_cgi H file url ip_ret ip_text sr pipe_w pipe_r pid reads).2.filterMap
        SysCall.payload = relay_loop reads false) ∧
    (pipe_w ≠ 0 →
      (do_cgi H file url ip_ret ip_text sr pipe_w pipe_r pid reads).2 =
        [SysCall.pipe pipe_w, SysCall.mk_err]) ∧
    (pipe_w = 0 → pipe_r ≠ 0 →
      (do_cgi H file url ip_ret ip_text sr pipe_w pipe_r pid reads).2 =
        [SysCall.pipe pipe_w, SysCall.pipe pipe_r, SysCall.mk_err]) ∧
    (pipe_w = 0 → pipe_r = 0 → pid < 0 →
      (do_cgi H file url ip_ret ip_text sr pipe_w pipe_r pid reads).2 =
        [SysCall.pipe pipe_w, SysCall.pipe pipe_r, SysCall.vfork pid, SysCall.mk_err]) := by
  have hrelay : ∀ c ∈ relay_calls reads false, (∀ r, c ≠ SysCall.pipe r) ∧
      (∀ p, c ≠ SysCall.vfork p) := by
    intro c hc
    have := relay_calls_transfer reads false c hc
    constructor
    · intro r e; rw [e] at this; simp [SysCall.is_transfer] at this
    · intro p e; rw [e] at this; simp [SysCall.is_transfer] at this
  by_cases h1 : pipe_w = 0
  · by_cases h2 : pipe_r = 0
    · by_cases h3 : pid < 0
      · have hR : do_cgi H file url ip_ret ip_text sr pipe_w pipe_r pid reads =
            (some 403, [SysCall.pipe pipe_w, SysCall.pipe pipe_r, SysCall.vfork pid,
              SysCall.mk_err]) := by
          simp [do_cgi, h1, h2, h3]
        rw [hR]
        refine ⟨?_, ?_, ?_, ?_, ?_, ?_, ?_, ?_, ?_, ?_, ?_, ?_, ?_⟩
        · simp [h3]
        · simp; intro _ _; omega
        · simp
        · simp [h1, h2]
        · simp
        · simp [h1, h2, h3]
        · simp
        · simp [h1, h2]
        · simp [SysCall.is_transfer]
        · simp
        · simp [h1]
        · simp [h2]
        · simp
      · by_cases h4 : pid = 0
        · have hR : do_cgi H file url ip_ret ip_text sr pipe_w pipe_r pid reads =
              (none, [SysCall.pipe pipe_w, SysCall.pipe pipe_r, SysCall.vfork pid,
                SysCall.child file (do_cgi_env H file url ip_ret ip_text sr)]) := by
            simp [do_cgi, h1, h2, h4]
          rw [hR]
          refine ⟨?_, ?_, ?_, ?_, ?_, ?_, ?_, ?_, ?_, ?_, ?_, ?_, ?_⟩
          · simp [h1, h2, h4]
          · simp [h4]
          · simp
          · simp [h1, h2]
          · simp
          · simp [h1, h2, h4]
          · simp [h4]
          · simp [h1, h2]
          · simp
          · simp
          · simp [h1]
          · simp [h2]
          · simp [h4]
        · have hR : do_cgi H file url ip_ret ip_text sr pipe_w pipe_r pid reads =
              (some 200,
                [SysCall.pipe pipe_w, SysCall.pipe pipe_r, SysCall.vfork pid, SysCall.close,
                  SysCall.close, SysCall.socket_cork_flag true] ++
                (if sr.data.len ≠ 0 then [SysCall.worker_spawn] else []) ++
                relay_calls reads false ++
                [SysCall.close, SysCall.close, SysCall.socket_cork_flag false]) := by
            simp [do_cgi, h1, h2, h3, h4]
          rw [hR]
          have hpipe : ∀ r, SysCall.pipe r ∈
              [SysCall.pipe pipe_w, SysCall.pipe pipe_r, SysCall.vfork pid, SysCall.close,
                SysCall.close, SysCall.socket_cork_flag true] ++
              (if sr.data.len ≠ 0 then [SysCall.worker_spawn] else []) ++
              relay_calls reads false ++
              [SysCall.close, SysCall.close, SysCall.socket_cork_flag false] → r = 0 := by
            intro r hr
            rw [List.mem_append, List.mem_append, List.mem_append] at hr
            rcases hr with ((hr | hr) | hr) | hr
            · simp [h1, h2] at hr; exact hr
            · split_ifs at hr <;> simp at hr
            · exact absurd rfl ((hrelay _ hr).1 r)
            · simp at hr
          have hvf : ∀ p, SysCall.vfork p ∈
              [SysCall.pipe pipe_w, SysCall.pipe pipe_r, SysCall.vfork pid, SysCall.close,
                SysCall.close, SysCall.socket_cork_flag true] ++
              (if sr.data.len ≠ 0 then [SysCall.worker_spawn] else []) ++
              relay_calls reads false ++
              [SysCall.close, SysCall.close, SysCall.socket_cork_flag false] → p = pid := by
            intro p hp
            rw [List.mem_append, List.mem_append, List.mem_append] at hp
            rcases hp with ((hp | hp) | hp) | hp
            · simp at hp; exact hp
            · split_ifs at hp <;> simp at hp
            · exact absurd rfl ((hrelay _ hp).2 p)
            · simp at hp
          refine ⟨?_, ?_, ?_, ?_, hvf, ?_, Or.inr (Or.inl rfl), ?_, ?_, ?_,
            fun h => absurd h1 h, fun _ h => absurd h2 h, fun _ _ h => absurd h h3⟩
          · simp [h1, h2, h3]
          · simp [h1, h2]; omega
          · simp
          · simp only [h1, h2, and_self, iff_true]
            exact ⟨pid, by simp⟩
          · constructor
            · intro h; simp at h
            · rintro (⟨r, hr, hr0⟩ | ⟨p, hp, hp0⟩)
              · exact absurd (hpipe r hr) hr0
              · rw [hvf p hp] at hp0; exact absurd hp0 h3
          · rintro ⟨r, hr, hr0⟩
            exact absurd (hpipe r hr) hr0
          · intro h; simp at h
          · intro _
            simp only [List.filterMap_append, relay_calls_payloads]
            split_ifs <;> simp [SysCall.payload]
    · have hR : do_cgi H file url ip_ret ip_text sr pipe_w pipe_r pid reads =
          (some 403, [SysCall.pipe pipe_w, SysCall.pipe pipe_r, SysCall.mk_err]) := by
        simp [do_cgi, h1, h2]
      rw [hR]
      refine ⟨?_, ?_, ?_, ?_, ?_, ?_, ?_, ?_, ?_, ?_, ?_, ?_, ?_⟩
      · simp [h2]
      · simp [h2]
      · simp
      · simp [h2]
      · simp
      · simp [h1, h2]
      · simp
      · simp
      · simp [SysCall.is_transfer]
      · simp
      · simp [h1]
      · simp
      · simp [h2]
  · have hR : do_cgi H file url ip_ret ip_text sr pipe_w pipe_r pid reads =
        (some 403, [SysCall.pipe pipe_w, SysCall.mk_err]) := by
      simp [do_cgi, h1]
    rw [hR]
    refine ⟨?_, ?_, ?_, ?_, ?_, ?_, ?_, ?_, ?_, ?_, ?_, ?_, ?_⟩
    · simp [h1]
    · simp [h1]
    · simp
    · simp [h1]
    · simp
    · simp [h1]
    · simp
    · simp
    · simp [SysCall.is_transfer]
    · simp
    · simp
    · simp [h1]
    · simp [h1]

/-! ## The pattern handed to `regcomp` -/

theorem c_str_cons_of_ne (c : Char) (cs : List Char) (h : c ≠ NUL) :
    c_str (c :: cs) = c :: c_str cs := by
  simp [c_str, List.takeWhile_cons, h]

theorem c_str_rewrite_match :
    ∀ mem : List Char,
      c_str (rewrite_match mem) = (c_str mem).map (fun c => if c = ' ' then '|' else c)
  | [] => by simp [rewrite_match, c_str]
  | c :: cs => by
    by_cases hc : c = NUL
    · simp [rewrite_match, hc, c_str_nul_cons]
    · have hf : (if c = ' ' then '|' else c) ≠ NUL := by
        split_ifs
        · decide
        · exact hc
      rw [rewrite_match, if_neg hc, c_str_cons_of_ne _ _ hf, c_str_cons_of_ne _ _ hc,
        List.map_cons, c_str_rewrite_match cs]

/-- Counterexample to C15 as stated: a tab between two fragments is whitespace
but is not replaced; the string handed to `regcomp` is the input unchanged. -/
theorem rewrite_match_keeps_tab :
    Char.isWhitespace '\t' = true ∧
    c_str (rewrite_match "*.cgi\t*.pl".toList) = "*.cgi\t*.pl".toList ∧
    c_str (rewrite_match "*.cgi\t*.pl".toList) ≠ "*.cgi|*.pl".toList := by
  decide

/-- C15 (as amended): the string `cgi_read_config` hands to `regcomp` has the
length of the configured one and is obtained from it by replacing every space
character by `|` and leaving every other character, tabs and other whitespace
included, unchanged. -/
theorem rewrite_match_spaces (mem : List Char) :
    (c_str (rewrite_match mem)).length = (c_str mem).length ∧
    c_str (rewrite_match mem) = (c_str mem).map (fun c => if c = ' ' then '|' else c) ∧
    c_str (rewrite_match "*.cgi *.pl".toList) = "*.cgi|*.pl".toList := by
  refine ⟨?_, c_str_rewrite_match mem, by decide⟩
  rw [c_str_rewrite_match, List.length_map]

end Monkey
